import Mathlib

/-!
Shallow embedding of the game logic of `src/main.py` (a Discord bot with a
blackjack engine, a coin-flip streak mini-game and a file-backed wallet
store), together with theorems settling the specification claims.

Conventions of the embedding:
* Python card strings such as `"AS"` become a `Card` structure holding a
  `Rank` and a `Suit`; `_card_rank` is the `rank` projection and
  `_card_value` is `cardValue`.
* The deck is kept in draw order (Python pops from the end of the shuffled
  list; we pop from the head of the list, which is the same stack up to
  reversal).  `random.shuffle` is nondeterministic, so every theorem that
  depends on the cards dealt quantifies over the deck contents; when the
  deck runs empty the code rebuilds a fresh shuffled deck, which we model
  with the fixed `buildDeck` order.
* Python `list` indexing raises `IndexError` out of range; the embedding
  uses `List.getD` / `List.set` (total, defaulting / no-op out of range).
  The reachable-state invariant proved for the claims shows the indices the
  code uses are always in range, so the defaults are never observed.
* Python `int` is modelled by `Int` for money and by `Nat` for hand totals
  (card values and totals are non-negative throughout the source).
-/

/-- Card ranks, as in `_build_deck`. -/
inductive Rank
  | ace | two | three | four | five | six | seven | eight | nine | ten
  | jack | queen | king
  deriving DecidableEq, Repr, Fintype

/-- Card suits, as in `_build_deck`. -/
inductive Suit
  | spades | hearts | diamonds | clubs
  deriving DecidableEq, Repr, Fintype

/-- A playing card (Python represents it as a string like `"AS"`). -/
structure Card where
  rank : Rank
  suit : Suit
  deriving DecidableEq, Repr, Fintype

/-- `BlackjackGame._card_rank`. -/
def cardRank (c : Card) : Rank := c.rank

/-- `BlackjackGame._card_value`: J/Q/K count 10, an ace counts 11, the rest
their pip value. -/
def cardValue (c : Card) : Nat :=
  match c.rank with
  | .jack | .queen | .king => 10
  | .ace => 11
  | .two => 2
  | .three => 3
  | .four => 4
  | .five => 5
  | .six => 6
  | .seven => 7
  | .eight => 8
  | .nine => 9
  | .ten => 10

/-- The `while total > 21 and aces:` loop of `_hand_value`: subtract 10 and
consume one ace while the total busts and an ace is still counted as 11. -/
def adjustAces : Nat → Nat → Nat
  | total, 0 => total
  | total, aces + 1 => if 21 < total then adjustAces (total - 10) aces else total

/-- `BlackjackGame._hand_value`: one pass accumulating the raw total (aces
as 11) and the ace count, then the bust-adjustment loop. -/
def handValue (hand : List Card) : Nat :=
  let acc := hand.foldl
    (fun (p : Nat × Nat) c =>
      (p.1 + cardValue c, if cardValue c = 11 then p.2 + 1 else p.2))
    (0, 0)
  adjustAces acc.1 acc.2

/-- Raw total of a hand with every ace counted as 11. -/
def sumVal (hand : List Card) : Nat := (hand.map cardValue).sum

/-- Number of aces in a hand (the cards whose value is 11). -/
def countAces (hand : List Card) : Nat :=
  (hand.filter (fun c => decide (cardValue c = 11))).length

/-- Modelled from the spec: the hand total with every ace counted as 1 (the
lowest assignment of ace values, the baseline of the "highest non-busting
total" reading of the evaluator). -/
def specLow (hand : List Card) : Nat :=
  (hand.map (fun c => if cardValue c = 11 then 1 else cardValue c)).sum

/-- `BlackjackGame._is_blackjack`: exactly two cards totalling 21. -/
def isBlackjack (hand : List Card) : Bool :=
  decide (hand.length = 2 ∧ handValue hand = 21)

/-- Hand statuses of `BlackjackGame.hand_statuses` (the comment at
`__init__`: playing, bust, stood, win, lose, push, blackjack). -/
inductive Status
  | playing | bust | stood | win | lose | push | blackjack
  deriving DecidableEq, Repr

/-- The mutable state of a `BlackjackGame`, one field per attribute set in
`__init__`. -/
structure GameState where
  deck : List Card
  player_hands : List (List Card)
  dealer_hand : List Card
  finished : Bool
  winning_hand_count : Nat
  result : String
  current_hand_index : Nat
  split_used : Bool
  hand_statuses : List Status
  hand_bets : List Int
  hand_doubled : List Bool
  settled : Bool
  deriving DecidableEq, Repr

/-- Used where the embedding needs an arbitrary card for an out-of-range
`List.getD` (where Python would raise `IndexError`). -/
def defaultCard : Card := ⟨Rank.ace, Suit.spades⟩

/-- `BlackjackGame._build_deck`, before the `random.shuffle`: the 52-card
product of ranks and suits.  The shuffle is nondeterministic, so theorems
quantify over deck contents; this fixed order only appears when the code
reshuffles an exhausted deck. -/
def buildDeck : List Card :=
  ([Rank.ace, Rank.two, Rank.three, Rank.four, Rank.five, Rank.six, Rank.seven,
    Rank.eight, Rank.nine, Rank.ten, Rank.jack, Rank.queen, Rank.king].map
    (fun r => [Suit.spades, Suit.hearts, Suit.diamonds, Suit.clubs].map
      (fun s => Card.mk r s))).flatten

/-- Pop the next card of a deck kept in draw order (unreachable empty case:
the caller reshuffles first, and a rebuilt deck is never empty). -/
def drawFrom : List Card → Card × List Card
  | [] => (defaultCard, [])
  | c :: rest => (c, rest)

/-- `BlackjackGame._draw_card`: reshuffle when the deck is exhausted, then
pop the next card. -/
def drawCard (g : GameState) : Card × GameState :=
  let deck := if g.deck.isEmpty then buildDeck else g.deck
  let p := drawFrom deck
  (p.1, { g with deck := p.2 })

/-- Apply `f` to the element at index `i` (Python mutates `l[i]` in place;
out of range Python raises, the model is a no-op). -/
def modAt (f : α → α) : Nat → List α → List α
  | _, [] => []
  | 0, a :: as => f a :: as
  | n + 1, a :: as => a :: modAt f n as

/-- Status of hand `i` (`hand_statuses[i]`; the `playing` default stands in
for Python's `IndexError`, never observed on reachable states). -/
def getSt (g : GameState) (i : Nat) : Status := g.hand_statuses.getD i .playing

/-- `BlackjackGame.hand_total`: value of player hand `i`. -/
def handTotal (g : GameState) (i : Nat) : Nat :=
  handValue (g.player_hands.getD i [])

/-- `BlackjackGame.dealer_total`. -/
def dealerTotal (g : GameState) : Nat := handValue g.dealer_hand

/-- One iteration body of `_dealer_play`: append a drawn card to the dealer
hand. -/
def dealerDraw (g : GameState) : GameState :=
  let p := drawCard g
  { p.2 with dealer_hand := p.2.dealer_hand ++ [p.1] }

/-- Fuelled form of the `while self.dealer_total < 17` loop of
`_dealer_play`.  Each iteration adds one card and a hand's value is at
least its length (`length_le_handValue`), so `17 - length` iterations
always suffice; when the fuel hits zero the loop guard is already false. -/
def dealerPlayAux : Nat → GameState → GameState
  | 0, g => g
  | fuel + 1, g =>
      if dealerTotal g < 17 then dealerPlayAux fuel (dealerDraw g) else g

/-- `BlackjackGame._dealer_play`: draw until the dealer total reaches 17. -/
def dealerPlay (g : GameState) : GameState :=
  dealerPlayAux (17 - g.dealer_hand.length) g

/-- Fuelled form of the `while` loop of `_advance_hand`: walk
`current_hand_index` forward past non-playing hands.  The fuel
`length - index` covers every iteration the source loop can make. -/
def advanceAux (statuses : List Status) : Nat → Nat → Nat
  | 0, i => i
  | fuel + 1, i =>
      if i < statuses.length then
        if statuses.getD i Status.playing = Status.playing then i
        else advanceAux statuses fuel (i + 1)
      else i

/-- `BlackjackGame._advance_hand`. -/
def advanceHand (g : GameState) : GameState :=
  let idx := advanceAux g.hand_statuses
    (g.hand_statuses.length - g.current_hand_index) g.current_hand_index
  { g with current_hand_index := idx }

/-- One iteration of the comparison loop of `_finalize_if_done`: a bust
hand keeps its status, otherwise the player total is compared with the
dealer total. -/
def resolveStatus (dealerT playerT : Nat) (st : Status) : Status :=
  if st = Status.bust then st
  else if 21 < playerT then Status.bust
  else if 21 < dealerT ∨ dealerT < playerT then Status.win
  else if playerT = dealerT then Status.push
  else Status.lose

/-- The `for idx, status in enumerate(self.hand_statuses)` loop of
`_finalize_if_done`, resolving the status at each index `i, i+1, ...`
against the player hand at the same index. -/
def resolveStatuses (hands : List (List Card)) (dealerT : Nat) :
    Nat → List Status → List Status
  | _, [] => []
  | i, st :: rest =>
      resolveStatus dealerT (handValue (hands.getD i [])) st ::
        resolveStatuses hands dealerT (i + 1) rest

/-- Number of statuses satisfying `p` (the `sum(1 for status in ... if ...)`
counters of `_finalize_if_done`). -/
def countSt (p : Status → Bool) (l : List Status) : Nat := (l.filter p).length

/-- Tail of `_finalize_if_done` (after the dealer/comparison block): mark
the session finished and fill in the win counter and the result message. -/
def finishUp (g1 : GameState) : GameState :=
  let wins := countSt (fun s => decide (s = Status.win ∨ s = Status.blackjack))
    g1.hand_statuses
  let pushes := countSt (fun s => decide (s = Status.push)) g1.hand_statuses
  let total := g1.hand_statuses.length
  { g1 with
    finished := true,
    winning_hand_count := wins,
    result :=
      if wins = total then "You win all hands!"
      else if 0 < wins then "You win " ++ toString wins ++ " hand(s)."
      else if pushes = total then "All hands push."
      else if 0 < pushes then "No wins. Pushes: " ++ toString pushes ++ "."
      else "Dealer wins." }

/-- `BlackjackGame._finalize_if_done`: nothing happens while a hand is
still playing; otherwise the dealer acts (only if some hand is not bust),
the surviving hands are compared, and the session is marked finished with
its result message. -/
def finalizeIfDone (g : GameState) : GameState :=
  if g.hand_statuses.any (fun s => decide (s = Status.playing)) then g
  else if g.hand_statuses.any (fun s => decide (s ≠ Status.bust)) then
    let gd := dealerPlay g
    finishUp { gd with hand_statuses :=
        resolveStatuses gd.player_hands (dealerTotal gd) 0 gd.hand_statuses }
  else finishUp g

/-- `BlackjackGame._check_initial_blackjack`: resolve naturals right after
the deal. -/
def checkInitialBlackjack (g : GameState) : GameState :=
  let player := g.player_hands.getD 0 []
  let pb := isBlackjack player
  let db := isBlackjack g.dealer_hand
  if pb && db then
    { g with hand_statuses := g.hand_statuses.set 0 Status.push,
             result := "Both you and the dealer have blackjack. Push.",
             finished := true }
  else if pb then
    { g with hand_statuses := g.hand_statuses.set 0 Status.blackjack,
             winning_hand_count := 1,
             result := "Blackjack! You win.",
             finished := true }
  else if db then
    { g with hand_statuses := g.hand_statuses.set 0 Status.lose,
             result := "Dealer has blackjack. You lose.",
             finished := true }
  else g

/-- `BlackjackGame.__init__` run with `deck` as the outcome of the initial
shuffle: deal two cards to the single player hand, two to the dealer,
record the bet, and resolve naturals. -/
def initGameWith (deck : List Card) (bet : Int) : GameState :=
  let g0 : GameState :=
    { deck := deck, player_hands := [], dealer_hand := [],
      finished := false, winning_hand_count := 0, result := "",
      current_hand_index := 0, split_used := false,
      hand_statuses := [Status.playing], hand_bets := [bet],
      hand_doubled := [false], settled := false }
  let p1 := drawCard g0
  let p2 := drawCard p1.2
  let d1 := drawCard p2.2
  let d2 := drawCard d1.2
  checkInitialBlackjack
    { d2.2 with player_hands := [[p1.1, p2.1]], dealer_hand := [d1.1, d2.1] }

/-- `BlackjackGame.can_split`. -/
def canSplit (g : GameState) : Bool :=
  if g.finished || g.split_used then false
  else if g.player_hands.length ≠ 1 then false
  else
    let hand := g.player_hands.getD 0 []
    if hand.length ≠ 2 then false
    else decide (cardRank (hand.getD 0 defaultCard) = cardRank (hand.getD 1 defaultCard))

/-- `BlackjackGame.split`: returns whether the split happened together with
the new state (Python mutates `self` and returns a `bool`). -/
def splitGame (g : GameState) : Bool × GameState :=
  if canSplit g then
    match g.player_hands.getD 0 [] with
    | [first, second] =>
        let p1 := drawCard g
        let p2 := drawCard p1.2
        let bet := g.hand_bets.getD 0 0
        (true,
          { p2.2 with
            player_hands := [[first, p1.1], [second, p2.1]],
            hand_statuses := [Status.playing, Status.playing],
            hand_bets := [bet, bet],
            hand_doubled := [false, false],
            current_hand_index := 0,
            split_used := true })
    | _ => (false, g)
  else (false, g)

/-- `BlackjackGame.can_double`. -/
def canDouble (g : GameState) : Bool :=
  if g.finished then false
  else if getSt g g.current_hand_index ≠ Status.playing then false
  else if (g.player_hands.getD g.current_hand_index []).length ≠ 2 then false
  else !(g.hand_doubled.getD g.current_hand_index false)

/-- `BlackjackGame.double_down`: double the current bet, draw one card,
force a stand (bust when over 21), advance, finalize. -/
def doubleDown (g : GameState) : GameState :=
  if canDouble g then
    let i := g.current_hand_index
    let g0 := { g with
      hand_bets := modAt (fun b => b * 2) i g.hand_bets,
      hand_doubled := g.hand_doubled.set i true }
    let p := drawCard g0
    let g2 := { p.2 with player_hands := modAt (fun h => h ++ [p.1]) i p.2.player_hands }
    let newSts := g2.hand_statuses.set i
      (if 21 < handTotal g2 i then Status.bust else Status.stood)
    let g3 := { g2 with hand_statuses := newSts }
    finalizeIfDone (advanceHand g3)
  else g

/-- `BlackjackGame.player_hit`. -/
def playerHit (g : GameState) : GameState :=
  if g.finished then g
  else
    let p := drawCard g
    let newHands := modAt (fun h => h ++ [p.1]) p.2.current_hand_index p.2.player_hands
    let g2 := { p.2 with player_hands := newHands }
    if 21 < handTotal g2 g2.current_hand_index then
      let bustSts := g2.hand_statuses.set g2.current_hand_index Status.bust
      finalizeIfDone (advanceHand { g2 with hand_statuses := bustSts })
    else g2

/-- `BlackjackGame.player_stand`. -/
def playerStand (g : GameState) : GameState :=
  if g.finished then g
  else
    let stoodSts := g.hand_statuses.set g.current_hand_index Status.stood
    finalizeIfDone (advanceHand { g with hand_statuses := stoodSts })

/-- `BlackjackGame.settle_payout`: the payout and the new state (the source
mutates `self.settled` and returns the payout). -/
def settlePayout (g : GameState) : Int × GameState :=
  if g.settled then (0, g)
  else
    let payout := (g.hand_bets.zip g.hand_statuses).foldl
      (fun acc p =>
        if p.2 = Status.win ∨ p.2 = Status.blackjack then acc + p.1 * 2
        else if p.2 = Status.push then acc + p.1
        else acc) 0
    (payout, { g with settled := true })

/-- `BlackjackGame.forfeit`: on timeout every still-playing hand loses. -/
def forfeitGame (g : GameState) : GameState :=
  if g.finished then g
  else
    { g with
      hand_statuses := g.hand_statuses.map
        (fun s => if s = Status.playing then Status.lose else s),
      finished := true,
      result := "Game timed out. Bets forfeited." }

/-- `COIN_TARGET` (module constant). -/
def COIN_TARGET : Nat := 5

/-- `COIN_REWARD` (module constant). -/
def COIN_REWARD : Int := 500

/-- The state of a `CoinFlipView` relevant to the game logic (`streak` and
`finished`; the display strings and Discord plumbing are presentation
only). -/
structure CoinGame where
  streak : Nat
  finished : Bool
  deriving DecidableEq, Repr

/-- `CoinFlipView.__init__`: streak 0, not finished. -/
def initCoinGame : CoinGame := { streak := 0, finished := false }

/-- `CoinFlipView._handle_guess`, with the random `_flip` outcome passed in
as a parameter.  Returns the new state together with the amount credited to
the wallet by this call (`COIN_REWARD` exactly when the target streak is
reached, 0 otherwise, 0 with no state change on a finished game). -/
def handleGuess (g : CoinGame) (guess outcome : String) : CoinGame × Int :=
  if g.finished then (g, 0)
  else if guess = outcome then
    let streak := g.streak + 1
    if COIN_TARGET ≤ streak then ({ streak := streak, finished := true }, COIN_REWARD)
    else ({ g with streak := streak }, 0)
  else ({ g with streak := 0 }, 0)

/-- `STARTING_BALANCE` (module constant). -/
def STARTING_BALANCE : Int := 1000

/-- The wallet store of `WalletManager`: the JSON dict keyed by
`str(user_id)` is modelled as a partial map from user ids (the string
conversion is injective), `none` meaning the key is absent.  File
persistence (`_save`/`_load`) is I/O and out of scope. -/
def Wallets : Type := Nat → Option Int

/-- `WalletManager.ensure_user`: insert the starting balance when the key
is absent. -/
def ensureUser (w : Wallets) (u : Nat) : Wallets :=
  match w u with
  | some _ => w
  | none => fun v => if v = u then some STARTING_BALANCE else w v

/-- `WalletManager.get_balance`: the stored balance, or the starting
balance when the key is absent. -/
def getBalance (w : Wallets) (u : Nat) : Int :=
  (w u).getD STARTING_BALANCE

/-- `WalletManager.adjust_balance`: ensure the user exists, add the delta,
return the new store and the new balance. -/
def adjustBalance (w : Wallets) (u : Nat) (delta : Int) : Wallets × Int :=
  let w1 := ensureUser w u
  let newVal := (w1 u).getD STARTING_BALANCE + delta
  ((fun v => if v = u then some newVal else w1 v), newVal)

/-- One public engine operation applied to a game state: the moves the
Discord view can trigger (`_finalize_if_done` and the other underscore
helpers run inside these, never on their own). -/
inductive Step : GameState → GameState → Prop
  | hit (g : GameState) : Step g (playerHit g)
  | stand (g : GameState) : Step g (playerStand g)
  | split (g : GameState) : Step g (splitGame g).2
  | double (g : GameState) : Step g (doubleDown g)
  | forfeit (g : GameState) : Step g (forfeitGame g)
  | settle (g : GameState) : Step g (settlePayout g).2

/-- Game states reachable from a fresh deal by public engine operations. -/
inductive Reachable : GameState → Prop
  | init (deck : List Card) (bet : Int) : Reachable (initGameWith deck bet)
  | step {g g' : GameState} : Reachable g → Step g g' → Reachable g'

/-- Allowed relation between a hand status before and after one public
engine operation: unchanged, or leaving `playing`, or a `stood` hand being
resolved to win/lose/push by finalization. -/
def StatusRel (s sNew : Status) : Prop :=
  sNew = s ∨ s = Status.playing ∨
  (s = Status.stood ∧
    (sNew = Status.win ∨ sNew = Status.lose ∨ sNew = Status.push))

/-- Invariant of every reachable `BlackjackGame` state: statuses and hands
line up, an unfinished session points at an in-range playing hand with
everything before it settled, a finished session has no playing hand, an
unfinished session only carries playing/stood/bust statuses, and every
playing or stood hand totals at most 21. -/
structure GameInv (g : GameState) : Prop where
  len_eq : g.hand_statuses.length = g.player_hands.length
  not_fin : g.finished = false →
    g.current_hand_index < g.hand_statuses.length ∧
    getSt g g.current_hand_index = Status.playing ∧
    ∀ j, j < g.current_hand_index → getSt g j ≠ Status.playing
  fin : g.finished = true →
    ∀ j, j < g.hand_statuses.length → getSt g j ≠ Status.playing
  live : g.finished = false →
    ∀ j, j < g.hand_statuses.length →
      getSt g j = Status.playing ∨ getSt g j = Status.stood ∨
        getSt g j = Status.bust
  le21 : ∀ j, j < g.hand_statuses.length →
    (getSt g j = Status.playing ∨ getSt g j = Status.stood) →
    handTotal g j ≤ 21

/-- Spade of a given rank (shorthand for concrete test decks). -/
def cS (r : Rank) : Card := ⟨r, Suit.spades⟩

/-- Heart of a given rank (shorthand for concrete test decks). -/
def cH (r : Rank) : Card := ⟨r, Suit.hearts⟩

/-- A concrete shuffle outcome: the player is dealt a pair of eights (16,
no natural), the dealer 9-7 (16, no natural); the split draws a 2 and a 3
and the dealer then draws a 5. -/
def cexDeck : List Card :=
  [cS .eight, cH .eight, cS .nine, cS .seven, cS .two, cS .three, cS .five]

/-- A concrete shuffle outcome with no naturals and no pair: player 10-9
(19), dealer 8-7 (15), follow-up draws all low cards. -/
def wDeckA : List Card :=
  [cS .ten, cS .nine, cS .eight, cS .seven, cS .two, cS .three, cS .four, cS .five]

/-- A concrete shuffle outcome where only the player holds a natural:
ace-ten against dealer 9-7. -/
def bjDeck : List Card :=
  [cS .ace, cS .ten, cS .nine, cS .seven, cS .two]

/-- A concrete shuffle outcome dealing the player a pair of sevens. -/
def pairDeck : List Card :=
  [cS .seven, cH .seven, cS .nine, cS .eight, cS .two, cS .three, cS .four, cS .five]

/-- A concrete mid-game state with one stood hand awaiting finalization:
player 10-9 (19) against dealer 10-9 (19). -/
def gFinalW : GameState :=
  { deck := [cS .two, cS .three], player_hands := [[cS .ten, cS .nine]],
    dealer_hand := [cH .ten, cH .nine], finished := false,
    winning_hand_count := 0, result := "", current_hand_index := 1,
    split_used := false, hand_statuses := [Status.stood], hand_bets := [25],
    hand_doubled := [false], settled := false }

/-- A concrete finished, unsettled two-hand state (one win, one push). -/
def gSettleW : GameState :=
  { deck := [], player_hands := [[cS .ten, cS .nine], [cH .ten, cH .eight]],
    dealer_hand := [cS .eight, cS .seven, cS .three], finished := true,
    winning_hand_count := 1, result := "You win 1 hand(s).",
    current_hand_index := 2, split_used := true,
    hand_statuses := [Status.win, Status.push], hand_bets := [10, 20],
    hand_doubled := [false, false], settled := false }

lemma handValue_foldl (hand : List Card) (p : Nat × Nat) :
    hand.foldl
      (fun (p : Nat × Nat) c =>
        (p.1 + cardValue c, if cardValue c = 11 then p.2 + 1 else p.2))
      p = (p.1 + sumVal hand, p.2 + countAces hand) := by
  induction hand generalizing p with
  | nil => simp [sumVal, countAces]
  | cons c rest ih =>
      simp only [List.foldl_cons, ih, sumVal, countAces, List.map_cons, List.sum_cons,
        List.filter_cons]
      by_cases h : cardValue c = 11 <;> simp [h] <;> omega

lemma handValue_eq_adjust (hand : List Card) :
    handValue hand = adjustAces (sumVal hand) (countAces hand) := by
  simp [handValue, handValue_foldl]

lemma card_value_cases (c : Card) :
    cardValue c = 11 ∨ (2 ≤ cardValue c ∧ cardValue c ≤ 10) := by
  obtain ⟨r, s⟩ := c
  cases r <;> simp [cardValue]

lemma sumVal_eq_low_add (hand : List Card) :
    sumVal hand = specLow hand + 10 * countAces hand := by
  induction hand with
  | nil => simp [sumVal, specLow, countAces]
  | cons c rest ih =>
      simp only [sumVal, specLow, countAces, List.map_cons, List.sum_cons,
        List.filter_cons] at ih ⊢
      by_cases h : cardValue c = 11 <;> simp [h] <;> omega

lemma length_le_specLow (hand : List Card) : hand.length ≤ specLow hand := by
  induction hand with
  | nil => simp [specLow]
  | cons c rest ih =>
      simp only [specLow, List.map_cons, List.sum_cons, List.length_cons] at ih ⊢
      rcases card_value_cases c with h | h
      · simp [h]; omega
      · have hne : cardValue c ≠ 11 := by omega
        simp [hne]; omega

lemma adjustAces_exists (a low : Nat) :
    ∃ j, j ≤ a ∧ adjustAces (low + 10 * a) a = low + 10 * j := by
  induction a generalizing low with
  | zero => exact ⟨0, le_refl 0, by simp [adjustAces]⟩
  | succ n ih =>
      by_cases h : 21 < low + 10 * (n + 1)
      · have heq : low + 10 * (n + 1) - 10 = low + 10 * n := by omega
        obtain ⟨j, hj, hval⟩ := ih low
        exact ⟨j, Nat.le_succ_of_le hj, by simp [adjustAces, h, heq, hval]⟩
      · exact ⟨n + 1, le_refl _, by simp [adjustAces, h]⟩

lemma adjustAces_le21 (a low : Nat) (k : Nat) (hk : k ≤ a)
    (h21 : low + 10 * k ≤ 21) : adjustAces (low + 10 * a) a ≤ 21 := by
  induction a generalizing low k with
  | zero =>
      have : k = 0 := Nat.le_zero.mp hk
      subst this
      simpa [adjustAces] using h21
  | succ n ih =>
      by_cases h : 21 < low + 10 * (n + 1)
      · have heq : low + 10 * (n + 1) - 10 = low + 10 * n := by omega
        have hk' : k ≤ n := by omega
        simpa [adjustAces, h, heq] using ih low k hk' h21
      · simp [adjustAces, h]; omega

lemma adjustAces_ge (a low k : Nat) (hk : k ≤ a) (h21 : low + 10 * k ≤ 21) :
    low + 10 * k ≤ adjustAces (low + 10 * a) a := by
  induction a generalizing low k with
  | zero =>
      have : k = 0 := Nat.le_zero.mp hk
      subst this
      simp [adjustAces]
  | succ n ih =>
      by_cases h : 21 < low + 10 * (n + 1)
      · have heq : low + 10 * (n + 1) - 10 = low + 10 * n := by omega
        have hk' : k ≤ n := by omega
        simpa [adjustAces, h, heq] using ih low k hk' h21
      · simp [adjustAces, h]; omega

lemma adjustAces_ge_low (a low : Nat) : low ≤ adjustAces (low + 10 * a) a := by
  obtain ⟨j, _, hval⟩ := adjustAces_exists a low
  omega

lemma length_le_handValue (hand : List Card) : hand.length ≤ handValue hand := by
  have h1 := handValue_eq_adjust hand
  rw [sumVal_eq_low_add] at h1
  have h3 := length_le_specLow hand
  have h4 := adjustAces_ge_low (countAces hand) (specLow hand)
  omega

lemma two_card_le_21 (c1 c2 : Card) : handValue [c1, c2] ≤ 21 := by
  have h1 := handValue_eq_adjust [c1, c2]
  rcases card_value_cases c1 with ha1 | ha1 <;> rcases card_value_cases c2 with ha2 | ha2
  · simp [sumVal, countAces, ha1, ha2] at h1
    rw [h1]
    simp [adjustAces]
  · have hne2 : cardValue c2 ≠ 11 := by omega
    simp [sumVal, countAces, ha1, hne2] at h1
    have hle : ¬ 21 < 11 + cardValue c2 := by omega
    rw [h1]
    simp [adjustAces, hle]
    omega
  · have hne1 : cardValue c1 ≠ 11 := by omega
    simp [sumVal, countAces, hne1, ha2] at h1
    have hle : ¬ 21 < cardValue c1 + 11 := by omega
    rw [h1]
    simp [adjustAces, hle]
    omega
  · have hne1 : cardValue c1 ≠ 11 := by omega
    have hne2 : cardValue c2 ≠ 11 := by omega
    simp [sumVal, countAces, hne1, hne2] at h1
    rw [h1]
    simp [adjustAces]
    omega

lemma payout_foldl (l : List (Int × Status)) (acc : Int) :
    l.foldl
      (fun acc p =>
        if p.2 = Status.win ∨ p.2 = Status.blackjack then acc + p.1 * 2
        else if p.2 = Status.push then acc + p.1 else acc) acc
    = acc + (l.map
        (fun p => if p.2 = Status.win ∨ p.2 = Status.blackjack then 2 * p.1
          else if p.2 = Status.push then p.1 else 0)).sum := by
  induction l generalizing acc with
  | nil => simp
  | cons p rest ih =>
      simp only [List.foldl_cons, List.map_cons, List.sum_cons, ih]
      by_cases h1 : p.2 = Status.win ∨ p.2 = Status.blackjack
      · simp only [if_pos h1]; ring
      · by_cases h2 : p.2 = Status.push
        · simp only [if_neg h1, if_pos h2]; ring
        · simp only [if_neg h1, if_neg h2]; ring

/-- C1: `handValue` computes the ace-as-11 sum followed by the
subtract-10-per-ace bust loop, and whenever some assignment of ace values
(1 or 11 per ace) keeps the total at or below 21, the result is the
highest such non-busting total. -/
theorem C1_handValue_highest_nonbusting (hand : List Card) :
    handValue hand = adjustAces (sumVal hand) (countAces hand) ∧
    ∀ k, k ≤ countAces hand → specLow hand + 10 * k ≤ 21 →
      specLow hand + 10 * k ≤ handValue hand ∧ handValue hand ≤ 21 ∧
      ∃ j, j ≤ countAces hand ∧ handValue hand = specLow hand + 10 * j := by
  refine ⟨handValue_eq_adjust hand, ?_⟩
  intro k hk h21
  have h1 := handValue_eq_adjust hand
  rw [sumVal_eq_low_add] at h1
  refine ⟨?_, ?_, ?_⟩
  · rw [h1]; exact adjustAces_ge _ _ _ hk h21
  · rw [h1]; exact adjustAces_le21 _ _ _ hk h21
  · obtain ⟨j, hj, hval⟩ := adjustAces_exists (countAces hand) (specLow hand)
    exact ⟨j, hj, by rw [h1, hval]⟩

/-- Witness for C1 at the concrete hand ace-nine: the soft 20 is reported. -/
theorem C1_witness :
    specLow [cS .ace, cH .nine] + 10 * 1 ≤ handValue [cS .ace, cH .nine] ∧
    handValue [cS .ace, cH .nine] ≤ 21 := by
  have h := (C1_handValue_highest_nonbusting [cS .ace, cH .nine]).2 1
    (by decide) (by decide)
  exact ⟨h.1, h.2.1⟩

/-- C3: the first `settle_payout` call returns twice the bet for each
win/blackjack hand plus the bet for each push hand, and only sets the
settled flag; every later call returns 0 and changes nothing. -/
theorem C3_settle_payout (g : GameState) :
    (g.settled = true → settlePayout g = (0, g)) ∧
    (g.settled = false →
      (settlePayout g).1 =
        ((g.hand_bets.zip g.hand_statuses).map
          (fun p => if p.2 = Status.win ∨ p.2 = Status.blackjack then 2 * p.1
            else if p.2 = Status.push then p.1 else 0)).sum ∧
      (settlePayout g).2 = { g with settled := true } ∧
      settlePayout (settlePayout g).2 = (0, (settlePayout g).2)) := by
  constructor
  · intro h; simp [settlePayout, h]
  · intro h
    refine ⟨?_, ?_, ?_⟩
    · simp [settlePayout, h, payout_foldl]
    · simp [settlePayout, h]
    · have h2 : (settlePayout g).2.settled = true := by simp [settlePayout, h]
      have hs : ∀ g' : GameState, g'.settled = true → settlePayout g' = (0, g') := by
        intro g' h'
        simp [settlePayout, h']
      exact hs _ h2

/-- Witness for C3 at a concrete finished two-hand game (win of 10, push
of 20): the first call pays 40. -/
theorem C3_witness : (settlePayout gSettleW).1 = 40 := by
  have h := (C3_settle_payout gSettleW).2 rfl
  rw [h.1]; decide

/-- C8: in the coin-streak game a correct guess increments the streak, a
wrong guess resets it to zero with no reward; reaching the target streak
of 5 credits the flat 500 reward and finishes the game; a finished game
rejects every further guess with no state change and no credit. -/
theorem C8_coin_streak (g : CoinGame) (guess outcome : String) :
    (g.finished = true → handleGuess g guess outcome = (g, 0)) ∧
    (g.finished = false → guess = outcome →
      (handleGuess g guess outcome).1.streak = g.streak + 1 ∧
      (COIN_TARGET ≤ g.streak + 1 →
        (handleGuess g guess outcome).2 = COIN_REWARD ∧
        (handleGuess g guess outcome).1.finished = true) ∧
      (g.streak + 1 < COIN_TARGET →
        (handleGuess g guess outcome).2 = 0 ∧
        (handleGuess g guess outcome).1.finished = false)) ∧
    (g.finished = false → guess ≠ outcome →
      (handleGuess g guess outcome).1 = { g with streak := 0 } ∧
      (handleGuess g guess outcome).2 = 0) := by
  refine ⟨?_, ?_, ?_⟩
  · intro h; simp [handleGuess, h]
  · intro h he
    by_cases ht : COIN_TARGET ≤ g.streak + 1
    · simp [handleGuess, h, he, ht]
    · simp [handleGuess, h, he, ht]
  · intro h he
    simp [handleGuess, h, he]

/-- Witness for C8: a wrong guess at streak 4 resets to 0 with no reward,
and a right guess at streak 4 pays 500 and ends the game. -/
theorem C8_witness :
    (handleGuess ⟨4, false⟩ "heads" "tails").1 = ⟨0, false⟩ ∧
    (handleGuess ⟨4, false⟩ "heads" "tails").2 = 0 ∧
    (handleGuess ⟨4, false⟩ "tails" "tails").2 = COIN_REWARD ∧
    (handleGuess ⟨4, false⟩ "tails" "tails").1.finished = true := by
  have hw := (C8_coin_streak ⟨4, false⟩ "heads" "tails").2.2 rfl (by decide)
  have hr := ((C8_coin_streak ⟨4, false⟩ "tails" "tails").2.1 rfl rfl).2.1
    (by decide)
  exact ⟨hw.1, hw.2, hr.1, hr.2⟩

/-- C9: adjusting a wallet by `-n` and then `+n` restores the user's
balance, and neither call touches any other user's balance. -/
theorem C9_adjust_roundtrip (w : Wallets) (u : Nat) (n : Int) :
    getBalance (adjustBalance (adjustBalance w u (-n)).1 u n).1 u = getBalance w u ∧
    (∀ v, v ≠ u → getBalance (adjustBalance w u (-n)).1 v = getBalance w v) ∧
    (∀ v, v ≠ u →
      getBalance (adjustBalance (adjustBalance w u (-n)).1 u n).1 v = getBalance w v) := by
  cases h : w u with
  | none =>
      refine ⟨?_, ?_, ?_⟩
      · simp [adjustBalance, ensureUser, getBalance, h]
      · intro v hv; simp [adjustBalance, ensureUser, getBalance, h, hv]
      · intro v hv; simp [adjustBalance, ensureUser, getBalance, h, hv]
  | some x =>
      refine ⟨?_, ?_, ?_⟩
      · simp [adjustBalance, ensureUser, getBalance, h]
      · intro v hv; simp [adjustBalance, ensureUser, getBalance, h, hv]
      · intro v hv; simp [adjustBalance, ensureUser, getBalance, h, hv]

/-- Witness for C9 on the empty wallet store, user 1, amount 5, other
user 2. -/
theorem C9_witness :
    getBalance (adjustBalance (adjustBalance (fun _ => none) 1 (-5)).1 1 5).1 1 =
      getBalance (fun _ => none) 1 ∧
    getBalance (adjustBalance (adjustBalance (fun _ => none) 1 (-5)).1 1 5).1 2 =
      getBalance (fun _ => none) 2 := by
  have h := C9_adjust_roundtrip (fun _ => none) 1 5
  exact ⟨h.1, h.2.2 2 (by decide)⟩

lemma getD_of_le (l : List α) (i : Nat) (d : α) (h : l.length ≤ i) :
    l.getD i d = d := by
  induction l generalizing i with
  | nil => simp
  | cons a as ih =>
      match i with
      | 0 => simp at h
      | n + 1 =>
          simp only [List.getD_cons_succ]
          exact ih n (by simpa using h)

lemma getD_set_self (l : List α) (i : Nat) (v d : α) (h : i < l.length) :
    (l.set i v).getD i d = v := by
  induction l generalizing i with
  | nil => simp at h
  | cons a as ih =>
      match i with
      | 0 => simp
      | n + 1 =>
          simp only [List.set_cons_succ, List.getD_cons_succ]
          exact ih n (by simpa using h)

lemma getD_set_ne (l : List α) (i j : Nat) (v d : α) (h : i ≠ j) :
    (l.set i v).getD j d = l.getD j d := by
  induction l generalizing i j with
  | nil => simp
  | cons a as ih =>
      match i, j with
      | 0, 0 => exact absurd rfl h
      | 0, m + 1 => simp
      | n + 1, 0 => simp
      | n + 1, m + 1 =>
          simp only [List.set_cons_succ, List.getD_cons_succ]
          exact ih n m (by omega)

lemma modAt_length (f : α → α) (i : Nat) (l : List α) :
    (modAt f i l).length = l.length := by
  induction l generalizing i with
  | nil => simp [modAt]
  | cons a as ih =>
      match i with
      | 0 => simp [modAt]
      | n + 1 => simp [modAt, ih n]

lemma getD_modAt_self (f : α → α) (i : Nat) (l : List α) (d : α)
    (h : i < l.length) : (modAt f i l).getD i d = f (l.getD i d) := by
  induction l generalizing i with
  | nil => simp at h
  | cons a as ih =>
      match i with
      | 0 => simp [modAt]
      | n + 1 =>
          simp only [modAt, List.getD_cons_succ]
          exact ih n (by simpa using h)

lemma getD_modAt_ne (f : α → α) (i j : Nat) (l : List α) (d : α) (h : i ≠ j) :
    (modAt f i l).getD j d = l.getD j d := by
  induction l generalizing i j with
  | nil => simp [modAt]
  | cons a as ih =>
      match i, j with
      | 0, 0 => exact absurd rfl h
      | 0, m + 1 => simp [modAt]
      | n + 1, 0 => simp [modAt]
      | n + 1, m + 1 =>
          simp only [modAt, List.getD_cons_succ]
          exact ih n m (by omega)

lemma any_playing_iff (l : List Status) :
    l.any (fun s => decide (s = Status.playing)) = true ↔
    ∃ j, j < l.length ∧ l.getD j Status.playing = Status.playing := by
  rw [List.any_eq_true]
  constructor
  · rintro ⟨x, hx, hp⟩
    rw [decide_eq_true_iff] at hp
    obtain ⟨i, hi, hgi⟩ := List.mem_iff_getElem.mp hx
    exact ⟨i, hi, by rw [List.getD_eq_getElem l _ hi, hgi, hp]⟩
  · rintro ⟨j, hj, hp⟩
    rw [List.getD_eq_getElem l _ hj] at hp
    exact ⟨l[j], List.getElem_mem hj, by simp [hp]⟩

lemma any_nonbust_iff (l : List Status) :
    l.any (fun s => decide (s ≠ Status.bust)) = true ↔
    ∃ j, j < l.length ∧ l.getD j Status.playing ≠ Status.bust := by
  rw [List.any_eq_true]
  constructor
  · rintro ⟨x, hx, hp⟩
    rw [decide_eq_true_iff] at hp
    obtain ⟨i, hi, hgi⟩ := List.mem_iff_getElem.mp hx
    exact ⟨i, hi, by rw [List.getD_eq_getElem l _ hi, hgi]; exact hp⟩
  · rintro ⟨j, hj, hp⟩
    rw [List.getD_eq_getElem l _ hj] at hp
    exact ⟨l[j], List.getElem_mem hj, by simpa using hp⟩

lemma advanceAux_spec (sts : List Status) (fuel i : Nat)
    (hfuel : sts.length ≤ i + fuel) :
    i ≤ advanceAux sts fuel i ∧
    (advanceAux sts fuel i < sts.length →
      sts.getD (advanceAux sts fuel i) Status.playing = Status.playing) ∧
    (∀ j, i ≤ j → j < advanceAux sts fuel i →
      sts.getD j Status.playing ≠ Status.playing) ∧
    (i ≤ sts.length → advanceAux sts fuel i ≤ sts.length) := by
  induction fuel generalizing i with
  | zero =>
      refine ⟨le_refl i, ?_, ?_, ?_⟩
      · intro h; simp [advanceAux] at h ⊢; omega
      · intro j h1 h2; simp [advanceAux] at h2; omega
      · intro h; simpa [advanceAux] using h
  | succ n ih =>
      by_cases hlt : i < sts.length
      · by_cases hpl : sts.getD i Status.playing = Status.playing
        · refine ⟨?_, ?_, ?_, ?_⟩ <;>
            simp only [advanceAux, if_pos hlt, if_pos hpl]
          · exact le_refl i
          · intro _; exact hpl
          · intro j h1 h2; omega
          · intro h; omega
        · have hrec := ih (i + 1) (by omega)
          refine ⟨?_, ?_, ?_, ?_⟩
          · simp only [advanceAux, if_pos hlt, if_neg hpl]
            omega
          · simp only [advanceAux, if_pos hlt, if_neg hpl]
            exact hrec.2.1
          · simp only [advanceAux, if_pos hlt, if_neg hpl]
            intro j h1 h2
            rcases Nat.eq_or_lt_of_le h1 with rfl | h1'
            · exact hpl
            · exact hrec.2.2.1 j h1' h2
          · simp only [advanceAux, if_pos hlt, if_neg hpl]
            intro _
            exact hrec.2.2.2 (by omega)
      · refine ⟨?_, ?_, ?_, ?_⟩ <;> simp only [advanceAux, if_neg hlt]
        · exact le_refl i
        · intro hcon; omega
        · intro j h1 h2; omega
        · intro h; exact h

lemma dealerDraw_fields (g : GameState) :
    (dealerDraw g).player_hands = g.player_hands ∧
    (dealerDraw g).hand_statuses = g.hand_statuses ∧
    (dealerDraw g).hand_bets = g.hand_bets ∧
    (dealerDraw g).hand_doubled = g.hand_doubled ∧
    (dealerDraw g).finished = g.finished ∧
    (dealerDraw g).current_hand_index = g.current_hand_index ∧
    (dealerDraw g).split_used = g.split_used ∧
    (dealerDraw g).settled = g.settled ∧
    (dealerDraw g).winning_hand_count = g.winning_hand_count ∧
    (dealerDraw g).result = g.result := by
  simp [dealerDraw, drawCard]

lemma dealerPlayAux_fields (fuel : Nat) (g : GameState) :
    (dealerPlayAux fuel g).player_hands = g.player_hands ∧
    (dealerPlayAux fuel g).hand_statuses = g.hand_statuses ∧
    (dealerPlayAux fuel g).hand_bets = g.hand_bets ∧
    (dealerPlayAux fuel g).hand_doubled = g.hand_doubled ∧
    (dealerPlayAux fuel g).finished = g.finished ∧
    (dealerPlayAux fuel g).current_hand_index = g.current_hand_index ∧
    (dealerPlayAux fuel g).split_used = g.split_used ∧
    (dealerPlayAux fuel g).settled = g.settled ∧
    (dealerPlayAux fuel g).winning_hand_count = g.winning_hand_count ∧
    (dealerPlayAux fuel g).result = g.result := by
  induction fuel generalizing g with
  | zero => simp [dealerPlayAux]
  | succ n ih =>
      by_cases h : dealerTotal g < 17
      · simp only [dealerPlayAux, if_pos h]
        obtain ⟨a1, a2, a3, a4, a5, a6, a7, a8, a9, a10⟩ := ih (dealerDraw g)
        obtain ⟨b1, b2, b3, b4, b5, b6, b7, b8, b9, b10⟩ := dealerDraw_fields g
        exact ⟨a1.trans b1, a2.trans b2, a3.trans b3, a4.trans b4, a5.trans b5,
          a6.trans b6, a7.trans b7, a8.trans b8, a9.trans b9, a10.trans b10⟩
      · simp [dealerPlayAux, h]

lemma dealerPlayAux_ext (fuel : Nat) (g : GameState) :
    ∃ ext, (dealerPlayAux fuel g).dealer_hand = g.dealer_hand ++ ext := by
  induction fuel generalizing g with
  | zero => exact ⟨[], by simp [dealerPlayAux]⟩
  | succ n ih =>
      by_cases h : dealerTotal g < 17
      · simp only [dealerPlayAux, if_pos h]
        obtain ⟨ext, hext⟩ := ih (dealerDraw g)
        refine ⟨(drawCard g).1 :: ext, ?_⟩
        rw [hext]
        simp [dealerDraw, drawCard]
      · exact ⟨[], by simp [dealerPlayAux, h]⟩

lemma dealerPlayAux_total (fuel : Nat) (g : GameState)
    (h : 17 ≤ g.dealer_hand.length + fuel) :
    17 ≤ dealerTotal (dealerPlayAux fuel g) := by
  induction fuel generalizing g with
  | zero =>
      have := length_le_handValue g.dealer_hand
      simp only [dealerPlayAux]
      unfold dealerTotal
      omega
  | succ n ih =>
      by_cases hd : dealerTotal g < 17
      · simp only [dealerPlayAux, if_pos hd]
        refine ih (dealerDraw g) ?_
        have : (dealerDraw g).dealer_hand.length = g.dealer_hand.length + 1 := by
          simp [dealerDraw, drawCard]
        omega
      · simp only [dealerPlayAux, if_neg hd]
        omega

lemma dealerPlay_total (g : GameState) : 17 ≤ dealerTotal (dealerPlay g) :=
  dealerPlayAux_total _ g (by omega)

lemma resolveStatuses_length (hands : List (List Card)) (dT : Nat)
    (i : Nat) (sts : List Status) :
    (resolveStatuses hands dT i sts).length = sts.length := by
  induction sts generalizing i with
  | nil => simp [resolveStatuses]
  | cons st rest ih => simp [resolveStatuses, ih]

lemma resolveStatuses_getD (hands : List (List Card)) (dT : Nat)
    (i : Nat) (sts : List Status) (j : Nat) (d : Status) (hj : j < sts.length) :
    (resolveStatuses hands dT i sts).getD j d =
      resolveStatus dT (handValue (hands.getD (i + j) [])) (sts.getD j d) := by
  induction sts generalizing i j with
  | nil => simp at hj
  | cons st rest ih =>
      match j with
      | 0 => simp [resolveStatuses]
      | m + 1 =>
          simp only [resolveStatuses, List.getD_cons_succ]
          rw [ih (i + 1) m (by simpa using hj)]
          have hidx : i + 1 + m = i + (m + 1) := by omega
          rw [hidx]

lemma finalize_noop (g : GameState)
    (h : ∃ j, j < g.hand_statuses.length ∧ getSt g j = Status.playing) :
    finalizeIfDone g = g := by
  have hg : g.hand_statuses.any (fun s => decide (s = Status.playing)) = true :=
    (any_playing_iff _).mpr h
  simp [finalizeIfDone, hg]

lemma finalize_active (g : GameState)
    (h : g.hand_statuses.any (fun s => decide (s = Status.playing)) = false)
    (hb : g.hand_statuses.any (fun s => decide (s ≠ Status.bust)) = true) :
    finalizeIfDone g =
      finishUp { dealerPlay g with
        hand_statuses := resolveStatuses (dealerPlay g).player_hands
          (dealerTotal (dealerPlay g)) 0 (dealerPlay g).hand_statuses } := by
  unfold finalizeIfDone
  rw [h, hb]
  simp

lemma finalize_allbust (g : GameState)
    (h : g.hand_statuses.any (fun s => decide (s = Status.playing)) = false)
    (hb : g.hand_statuses.any (fun s => decide (s ≠ Status.bust)) = false) :
    finalizeIfDone g = finishUp g := by
  unfold finalizeIfDone
  rw [h, hb]
  simp

lemma finishUp_fields (g1 : GameState) :
    (finishUp g1).finished = true ∧
    (finishUp g1).hand_statuses = g1.hand_statuses ∧
    (finishUp g1).player_hands = g1.player_hands ∧
    (finishUp g1).dealer_hand = g1.dealer_hand ∧
    (finishUp g1).hand_bets = g1.hand_bets ∧
    (finishUp g1).hand_doubled = g1.hand_doubled ∧
    (finishUp g1).current_hand_index = g1.current_hand_index ∧
    (finishUp g1).split_used = g1.split_used ∧
    (finishUp g1).settled = g1.settled := by
  simp [finishUp]

lemma dealerPlay_fields (g : GameState) :
    (dealerPlay g).player_hands = g.player_hands ∧
    (dealerPlay g).hand_statuses = g.hand_statuses ∧
    (dealerPlay g).hand_bets = g.hand_bets ∧
    (dealerPlay g).hand_doubled = g.hand_doubled ∧
    (dealerPlay g).finished = g.finished ∧
    (dealerPlay g).current_hand_index = g.current_hand_index ∧
    (dealerPlay g).split_used = g.split_used ∧
    (dealerPlay g).settled = g.settled ∧
    (dealerPlay g).winning_hand_count = g.winning_hand_count ∧
    (dealerPlay g).result = g.result :=
  dealerPlayAux_fields _ g

lemma dealerPlay_ext (g : GameState) :
    ∃ ext, (dealerPlay g).dealer_hand = g.dealer_hand ++ ext :=
  dealerPlayAux_ext _ g

lemma any_playing_false (g : GameState)
    (hnp : ∀ j, j < g.hand_statuses.length → getSt g j ≠ Status.playing) :
    g.hand_statuses.any (fun s => decide (s = Status.playing)) = false := by
  rcases Bool.eq_false_or_eq_true
    (g.hand_statuses.any (fun s => decide (s = Status.playing))) with h | h
  · obtain ⟨j, hj, hp⟩ := (any_playing_iff _).mp h
    exact absurd hp (hnp j hj)
  · exact h

lemma finalize_active_spec (g : GameState)
    (h : g.hand_statuses.any (fun s => decide (s = Status.playing)) = false)
    (hb : g.hand_statuses.any (fun s => decide (s ≠ Status.bust)) = true) :
    (finalizeIfDone g).finished = true ∧
    (finalizeIfDone g).player_hands = g.player_hands ∧
    (finalizeIfDone g).dealer_hand = (dealerPlay g).dealer_hand ∧
    (finalizeIfDone g).hand_statuses.length = g.hand_statuses.length ∧
    ∀ j, j < g.hand_statuses.length → getSt (finalizeIfDone g) j =
      resolveStatus (dealerTotal (dealerPlay g))
        (handValue (g.player_hands.getD j [])) (getSt g j) := by
  rw [finalize_active g h hb]
  obtain ⟨hd1, hd2, _⟩ := dealerPlay_fields g
  refine ⟨?_, ?_, ?_, ?_, ?_⟩
  · simp [finishUp]
  · simp [finishUp, hd1]
  · simp [finishUp]
  · simp [finishUp, resolveStatuses_length, hd2]
  · intro j hj
    unfold getSt
    have hproj : (finishUp { dealerPlay g with
        hand_statuses := resolveStatuses (dealerPlay g).player_hands
          (dealerTotal (dealerPlay g)) 0 (dealerPlay g).hand_statuses }).hand_statuses =
        resolveStatuses (dealerPlay g).player_hands
          (dealerTotal (dealerPlay g)) 0 (dealerPlay g).hand_statuses := by
      simp [finishUp]
    rw [hproj]
    have := resolveStatuses_getD (dealerPlay g).player_hands
      (dealerTotal (dealerPlay g)) 0 (dealerPlay g).hand_statuses j
      Status.playing (by rw [hd2]; exact hj)
    rw [this, hd1, hd2]
    simp

/-- C2: once no hand is `playing`, finalization marks the session
finished; the dealer draws (ending on a total of at least 17) exactly when
at least one hand is not bust and draws nothing when all hands busted;
every bust hand stays bust and every surviving hand is compared against
the final dealer total: win on dealer bust or a higher player total, push
on equal totals, lose otherwise. -/
theorem C2_finalize (g : GameState)
    (hnp : ∀ j, j < g.hand_statuses.length → getSt g j ≠ Status.playing)
    (hle : ∀ j, j < g.hand_statuses.length → getSt g j ≠ Status.bust →
      handTotal g j ≤ 21) :
    (finalizeIfDone g).finished = true ∧
    (finalizeIfDone g).player_hands = g.player_hands ∧
    (finalizeIfDone g).hand_statuses.length = g.hand_statuses.length ∧
    ((∀ j, j < g.hand_statuses.length → getSt g j = Status.bust) →
      (finalizeIfDone g).dealer_hand = g.dealer_hand ∧
      (finalizeIfDone g).hand_statuses = g.hand_statuses) ∧
    ((∃ j, j < g.hand_statuses.length ∧ getSt g j ≠ Status.bust) →
      17 ≤ dealerTotal (finalizeIfDone g) ∧
      (∃ ext, (finalizeIfDone g).dealer_hand = g.dealer_hand ++ ext) ∧
      (∀ j, j < g.hand_statuses.length →
        (getSt g j = Status.bust → getSt (finalizeIfDone g) j = Status.bust) ∧
        (getSt g j ≠ Status.bust → getSt (finalizeIfDone g) j =
          (if 21 < dealerTotal (finalizeIfDone g) ∨
              dealerTotal (finalizeIfDone g) < handTotal g j then Status.win
           else if handTotal g j = dealerTotal (finalizeIfDone g) then Status.push
           else Status.lose)))) := by
  have h := any_playing_false g hnp
  by_cases hb : g.hand_statuses.any (fun s => decide (s ≠ Status.bust)) = true
  · obtain ⟨hF, hP, hD, hL, hS⟩ := finalize_active_spec g h hb
    have hdt : dealerTotal (finalizeIfDone g) = dealerTotal (dealerPlay g) := by
      unfold dealerTotal
      rw [hD]
    refine ⟨hF, hP, hL, ?_, ?_⟩
    · intro hall
      obtain ⟨j, hj, hnb⟩ := (any_nonbust_iff _).mp hb
      exact absurd (hall j hj) hnb
    · intro _
      refine ⟨?_, ?_, ?_⟩
      · rw [hdt]
        exact dealerPlay_total g
      · obtain ⟨ext, hext⟩ := dealerPlay_ext g
        exact ⟨ext, by rw [hD, hext]⟩
      · intro j hj
        constructor
        · intro hbust
          rw [hS j hj, hbust]
          simp [resolveStatus]
        · intro hnb
          have ht := hle j hj hnb
          rw [hS j hj, hdt]
          unfold resolveStatus
          rw [if_neg hnb]
          have hnb21 : ¬ 21 < handValue (g.player_hands.getD j []) := by
            unfold handTotal at ht
            omega
          rw [if_neg hnb21]
          rfl
  · have hb2 : g.hand_statuses.any (fun s => decide (s ≠ Status.bust)) = false :=
      Bool.eq_false_iff.mpr hb
    rw [finalize_allbust g h hb2]
    refine ⟨by simp [finishUp], by simp [finishUp], by simp [finishUp], ?_, ?_⟩
    · intro _
      exact ⟨by simp [finishUp], by simp [finishUp]⟩
    · rintro ⟨j, hj, hnb⟩
      exact absurd ((any_nonbust_iff _).mpr ⟨j, hj, hnb⟩) hb

/-- Witness for C2 at a concrete one-hand state (player stood on 19,
dealer showing 19): finalization finishes the game and pushes. -/
theorem C2_witness :
    (finalizeIfDone gFinalW).finished = true ∧
    getSt (finalizeIfDone gFinalW) 0 = Status.push := by
  have h := C2_finalize gFinalW (by decide) (by decide)
  have h5 := (h.2.2.2.2 ⟨0, by decide, by decide⟩).2.2 0 (by decide)
  have h6 := h5.2 (by decide)
  refine ⟨h.1, ?_⟩
  rw [h6]
  decide

lemma advanceHand_fields (g : GameState) :
    (advanceHand g).player_hands = g.player_hands ∧
    (advanceHand g).hand_statuses = g.hand_statuses ∧
    (advanceHand g).hand_bets = g.hand_bets ∧
    (advanceHand g).hand_doubled = g.hand_doubled ∧
    (advanceHand g).finished = g.finished ∧
    (advanceHand g).split_used = g.split_used ∧
    (advanceHand g).settled = g.settled ∧
    (advanceHand g).dealer_hand = g.dealer_hand ∧
    (advanceHand g).deck = g.deck := by
  simp [advanceHand]

lemma finalize_preserved (g : GameState) :
    (finalizeIfDone g).player_hands = g.player_hands ∧
    (finalizeIfDone g).hand_bets = g.hand_bets ∧
    (finalizeIfDone g).hand_doubled = g.hand_doubled ∧
    (finalizeIfDone g).split_used = g.split_used ∧
    (finalizeIfDone g).settled = g.settled ∧
    (finalizeIfDone g).current_hand_index = g.current_hand_index := by
  by_cases h1 : g.hand_statuses.any (fun s => decide (s = Status.playing)) = true
  · simp [finalizeIfDone, h1]
  · have h1' : g.hand_statuses.any (fun s => decide (s = Status.playing)) = false :=
      Bool.eq_false_iff.mpr h1
    by_cases h2 : g.hand_statuses.any (fun s => decide (s ≠ Status.bust)) = true
    · rw [finalize_active g h1' h2]
      obtain ⟨hd1, _, hd3, hd4, _, hd6, hd7, hd8, _⟩ := dealerPlay_fields g
      refine ⟨?_, ?_, ?_, ?_, ?_, ?_⟩ <;> simp [finishUp] <;>
        first
          | exact hd1
          | exact hd3
          | exact hd4
          | exact hd7
          | exact hd8
          | exact hd6
    · have h2' : g.hand_statuses.any (fun s => decide (s ≠ Status.bust)) = false :=
        Bool.eq_false_iff.mpr h2
      rw [finalize_allbust g h1' h2']
      refine ⟨?_, ?_, ?_, ?_, ?_, ?_⟩ <;> simp [finishUp]

lemma playerHit_split_used (g : GameState) :
    (playerHit g).split_used = g.split_used := by
  unfold playerHit
  by_cases h : g.finished = true
  · simp [h]
  · simp only [h, Bool.false_eq_true, if_false]
    split
    · rw [(finalize_preserved _).2.2.2.1, (advanceHand_fields _).2.2.2.2.2.1]
      simp [drawCard]
    · simp [drawCard]

lemma playerStand_split_used (g : GameState) :
    (playerStand g).split_used = g.split_used := by
  unfold playerStand
  by_cases h : g.finished = true
  · simp [h]
  · simp only [h, Bool.false_eq_true, if_false]
    rw [(finalize_preserved _).2.2.2.1, (advanceHand_fields _).2.2.2.2.2.1]

lemma doubleDown_split_used (g : GameState) :
    (doubleDown g).split_used = g.split_used := by
  unfold doubleDown
  by_cases h : canDouble g = true
  · simp only [h, if_true]
    rw [(finalize_preserved _).2.2.2.1, (advanceHand_fields _).2.2.2.2.2.1]
    simp [drawCard]
  · simp [h]

lemma forfeit_split_used (g : GameState) :
    (forfeitGame g).split_used = g.split_used := by
  unfold forfeitGame
  by_cases h : g.finished = true <;> simp [h]

lemma settle_split_used (g : GameState) :
    (settlePayout g).2.split_used = g.split_used := by
  unfold settlePayout
  by_cases h : g.settled = true <;> simp [h]

lemma split_split_used (g : GameState) (h : g.split_used = true) :
    (splitGame g).2.split_used = true := by
  unfold splitGame
  have hc : canSplit g = false := by
    unfold canSplit
    simp [h]
  simp [hc, h]

lemma step_split_used {g g' : GameState} (s : Step g g')
    (h : g.split_used = true) : g'.split_used = true := by
  cases s with
  | hit => rw [playerHit_split_used]; exact h
  | stand => rw [playerStand_split_used]; exact h
  | split => exact split_split_used g h
  | double => rw [doubleDown_split_used]; exact h
  | forfeit => rw [forfeit_split_used]; exact h
  | settle => rw [settle_split_used]; exact h

lemma initGameWith_eq (c1 c2 c3 c4 : Card) (rest : List Card) (bet : Int) :
    initGameWith (c1 :: c2 :: c3 :: c4 :: rest) bet =
      checkInitialBlackjack
        { deck := rest, player_hands := [[c1, c2]], dealer_hand := [c3, c4],
          finished := false, winning_hand_count := 0, result := "",
          current_hand_index := 0, split_used := false,
          hand_statuses := [Status.playing], hand_bets := [bet],
          hand_doubled := [false], settled := false } := rfl

/-- C6: a fresh game deals the first two deck cards to the single player
hand and the next two to the dealer, records the bet, and resolves
naturals at once: both natural gives push and a finished session, a player
natural alone gives blackjack and finishes, a dealer natural alone gives
lose and finishes, and with no natural the hand stays playing in an
unfinished session. -/
theorem C6_initial_deal (c1 c2 c3 c4 : Card) (rest : List Card) (bet : Int) :
    (initGameWith (c1 :: c2 :: c3 :: c4 :: rest) bet).player_hands = [[c1, c2]] ∧
    (initGameWith (c1 :: c2 :: c3 :: c4 :: rest) bet).dealer_hand = [c3, c4] ∧
    (initGameWith (c1 :: c2 :: c3 :: c4 :: rest) bet).hand_bets = [bet] ∧
    (isBlackjack [c1, c2] = true → isBlackjack [c3, c4] = true →
      (initGameWith (c1 :: c2 :: c3 :: c4 :: rest) bet).hand_statuses = [Status.push] ∧
      (initGameWith (c1 :: c2 :: c3 :: c4 :: rest) bet).finished = true) ∧
    (isBlackjack [c1, c2] = true → isBlackjack [c3, c4] = false →
      (initGameWith (c1 :: c2 :: c3 :: c4 :: rest) bet).hand_statuses = [Status.blackjack] ∧
      (initGameWith (c1 :: c2 :: c3 :: c4 :: rest) bet).finished = true) ∧
    (isBlackjack [c1, c2] = false → isBlackjack [c3, c4] = true →
      (initGameWith (c1 :: c2 :: c3 :: c4 :: rest) bet).hand_statuses = [Status.lose] ∧
      (initGameWith (c1 :: c2 :: c3 :: c4 :: rest) bet).finished = true) ∧
    (isBlackjack [c1, c2] = false → isBlackjack [c3, c4] = false →
      (initGameWith (c1 :: c2 :: c3 :: c4 :: rest) bet).hand_statuses = [Status.playing] ∧
      (initGameWith (c1 :: c2 :: c3 :: c4 :: rest) bet).finished = false) := by
  rw [initGameWith_eq]
  by_cases hp : isBlackjack [c1, c2] = true <;>
    by_cases hd : isBlackjack [c3, c4] = true <;>
      simp [checkInitialBlackjack, hp, hd]

/-- Witness for C6: the player natural ace-ten against dealer 9-7 yields a
finished blackjack hand with the dealt cards in place. -/
theorem C6_witness :
    (initGameWith bjDeck 10).player_hands = [[cS .ace, cS .ten]] ∧
    (initGameWith bjDeck 10).hand_statuses = [Status.blackjack] ∧
    (initGameWith bjDeck 10).finished = true := by
  have h := C6_initial_deal (cS .ace) (cS .ten) (cS .nine) (cS .seven) [cS .two] 10
  have h5 := h.2.2.2.2.1 (by decide) (by decide)
  exact ⟨h.1, h5.1, h5.2⟩

/-- C4: `split` succeeds exactly when `can_split` holds (session live,
split unused, a single two-card hand of equal ranks); on success the two
cards seed two fresh one-card hands each dealt one more card, the bet is
duplicated, the doubled flags are cleared, play restarts at hand 0, and
the split-used flag bars any further split for the session (no public
operation ever clears it). -/
theorem C4_split (g : GameState) :
    ((splitGame g).1 = canSplit g) ∧
    (canSplit g = true ↔
      (g.finished = false ∧ g.split_used = false ∧ g.player_hands.length = 1 ∧
       (g.player_hands.getD 0 []).length = 2 ∧
       cardRank ((g.player_hands.getD 0 []).getD 0 defaultCard) =
         cardRank ((g.player_hands.getD 0 []).getD 1 defaultCard))) ∧
    (canSplit g = false → (splitGame g).2 = g) ∧
    (canSplit g = true →
      ∃ d1 d2 : Card,
        (splitGame g).2.player_hands =
          [[(g.player_hands.getD 0 []).getD 0 defaultCard, d1],
           [(g.player_hands.getD 0 []).getD 1 defaultCard, d2]] ∧
        (splitGame g).2.hand_bets = [g.hand_bets.getD 0 0, g.hand_bets.getD 0 0] ∧
        (splitGame g).2.hand_statuses = [Status.playing, Status.playing] ∧
        (splitGame g).2.hand_doubled = [false, false] ∧
        (splitGame g).2.current_hand_index = 0 ∧
        (splitGame g).2.split_used = true) ∧
    (∀ h : GameState, h.split_used = true → canSplit h = false) ∧
    (∀ h h' : GameState, Step h h' → h.split_used = true →
      h'.split_used = true ∧ canSplit h' = false) := by
  have hiff : canSplit g = true ↔
      (g.finished = false ∧ g.split_used = false ∧ g.player_hands.length = 1 ∧
       (g.player_hands.getD 0 []).length = 2 ∧
       cardRank ((g.player_hands.getD 0 []).getD 0 defaultCard) =
         cardRank ((g.player_hands.getD 0 []).getD 1 defaultCard)) := by
    unfold canSplit
    constructor
    · intro hc
      by_cases h1 : (g.finished || g.split_used) = true
      · rw [if_pos h1] at hc; exact absurd hc (by simp)
      · rw [if_neg h1] at hc
        simp only [Bool.or_eq_true, not_or] at h1
        by_cases h2 : g.player_hands.length ≠ 1
        · rw [if_pos h2] at hc; exact absurd hc (by simp)
        · rw [if_neg h2] at hc
          by_cases h3 : (g.player_hands.getD 0 []).length ≠ 2
          · rw [if_pos h3] at hc; exact absurd hc (by simp)
          · rw [if_neg h3] at hc
            refine ⟨by simpa using h1.1, by simpa using h1.2, by omega, by omega, ?_⟩
            exact of_decide_eq_true hc
    · rintro ⟨h1, h2, h3, h4, h5⟩
      rw [if_neg (by simp [h1, h2]), if_neg (by omega), if_neg (by omega)]
      exact decide_eq_true h5
  have hnosplit : ∀ h : GameState, h.split_used = true → canSplit h = false := by
    intro h hs
    unfold canSplit
    simp [hs]
  refine ⟨?_, hiff, ?_, ?_, hnosplit, ?_⟩
  · by_cases hc : canSplit g = true
    · obtain ⟨h1, h2, h3, h4, h5⟩ := hiff.mp hc
      unfold splitGame
      rw [if_pos hc]
      match hh : g.player_hands.getD 0 [] with
      | [a, b] => simp [hc]
      | [] => rw [hh] at h4; simp at h4
      | [a] => rw [hh] at h4; simp at h4
      | a :: b :: c :: rest => rw [hh] at h4; simp at h4
    · have hc' : canSplit g = false := Bool.eq_false_iff.mpr hc
      unfold splitGame
      rw [if_neg hc]
      simp [hc']
  · intro hc
    unfold splitGame
    rw [if_neg (by simp [hc])]
  · intro hc
    obtain ⟨h1, h2, h3, h4, h5⟩ := hiff.mp hc
    unfold splitGame
    rw [if_pos hc]
    match hh : g.player_hands.getD 0 [] with
    | [a, b] =>
        refine ⟨(drawCard g).1, (drawCard (drawCard g).2).1, ?_⟩
        simp
    | [] => rw [hh] at h4; simp at h4
    | [a] => rw [hh] at h4; simp at h4
    | a :: b :: c :: rest => rw [hh] at h4; simp at h4
  · intro h h' hstep hs
    have h1 := step_split_used hstep hs
    exact ⟨h1, hnosplit h' h1⟩

/-- Witness for C4 on a concrete pair of sevens: the split takes place and
produces the two extended one-card hands with duplicated bets. -/
theorem C4_witness :
    canSplit (initGameWith pairDeck 10) = true ∧
    (splitGame (initGameWith pairDeck 10)).1 = true ∧
    (splitGame (initGameWith pairDeck 10)).2.hand_bets = [10, 10] ∧
    (splitGame (initGameWith pairDeck 10)).2.split_used = true := by
  have h := C4_split (initGameWith pairDeck 10)
  have hc : canSplit (initGameWith pairDeck 10) = true := by decide
  obtain ⟨d1, d2, hs⟩ := h.2.2.2.1 hc
  refine ⟨hc, ?_, hs.2.1, hs.2.2.2.2.2⟩
  rw [h.1]
  exact hc

lemma modAt_oob (f : α → α) (i : Nat) (l : List α) (h : l.length ≤ i) :
    modAt f i l = l := by
  induction l generalizing i with
  | nil => simp [modAt]
  | cons a as ih =>
      match i with
      | 0 => simp at h
      | n + 1 =>
          simp only [modAt, List.cons.injEq, true_and]
          exact ih n (by simpa using h)

lemma canDouble_iff (g : GameState) :
    canDouble g = true ↔
      (g.finished = false ∧ getSt g g.current_hand_index = Status.playing ∧
       (g.player_hands.getD g.current_hand_index []).length = 2 ∧
       g.hand_doubled.getD g.current_hand_index false = false) := by
  unfold canDouble
  constructor
  · intro hc
    by_cases h1 : g.finished = true
    · rw [if_pos h1] at hc; exact absurd hc (by simp)
    · rw [if_neg h1] at hc
      by_cases h2 : getSt g g.current_hand_index ≠ Status.playing
      · rw [if_pos h2] at hc; exact absurd hc (by simp)
      · rw [if_neg h2] at hc
        by_cases h3 : (g.player_hands.getD g.current_hand_index []).length ≠ 2
        · rw [if_pos h3] at hc; exact absurd hc (by simp)
        · rw [if_neg h3] at hc
          refine ⟨by simpa using h1, by simpa using h2, by omega, by simpa using hc⟩
  · rintro ⟨h1, h2, h3, h4⟩
    rw [if_neg (by simp [h1]), if_neg (by simp [h2]), if_neg (by omega), h4]
    rfl

/-- C5: when `can_double` holds (live session, current hand still playing
with exactly two cards and not yet doubled) `double_down` doubles the
current bet, draws exactly one card into the hand, marks the hand bust
when the new total is over 21 and stood otherwise, then advances to the
next live hand and finalizes if none remains; when `can_double` fails the
state is untouched. -/
theorem C5_double_down (g : GameState) :
    (canDouble g = true ↔
      (g.finished = false ∧ getSt g g.current_hand_index = Status.playing ∧
       (g.player_hands.getD g.current_hand_index []).length = 2 ∧
       g.hand_doubled.getD g.current_hand_index false = false)) ∧
    (canDouble g = false → doubleDown g = g) ∧
    (canDouble g = true →
      (doubleDown g).hand_bets.getD g.current_hand_index 0 =
        2 * g.hand_bets.getD g.current_hand_index 0 ∧
      ∃ c, (doubleDown g).player_hands.getD g.current_hand_index [] =
          g.player_hands.getD g.current_hand_index [] ++ [c] ∧
        doubleDown g = finalizeIfDone (advanceHand
          { (drawCard g).2 with
            hand_bets := modAt (fun b => b * 2) g.current_hand_index g.hand_bets,
            hand_doubled := g.hand_doubled.set g.current_hand_index true,
            player_hands := modAt (fun h => h ++ [c]) g.current_hand_index g.player_hands,
            hand_statuses := g.hand_statuses.set g.current_hand_index (if 21 < handValue (g.player_hands.getD g.current_hand_index [] ++ [c]) then Status.bust else Status.stood) })) := by
  refine ⟨canDouble_iff g, ?_, ?_⟩
  · intro hc
    unfold doubleDown
    rw [if_neg (by simp [hc])]
  · intro hc
    obtain ⟨h1, h2, h3, h4⟩ := (canDouble_iff g).mp hc
    have hlen : g.current_hand_index < g.player_hands.length := by
      by_contra hcon
      rw [getD_of_le _ _ _ (by omega)] at h3
      simp at h3
    have hmod := getD_modAt_self (fun h => h ++ [(drawCard g).1])
      g.current_hand_index g.player_hands [] hlen
    have heq : doubleDown g = finalizeIfDone (advanceHand
        { (drawCard g).2 with
          hand_bets := modAt (fun b => b * 2) g.current_hand_index g.hand_bets,
          hand_doubled := g.hand_doubled.set g.current_hand_index true,
          player_hands := modAt (fun h => h ++ [(drawCard g).1]) g.current_hand_index g.player_hands,
          hand_statuses := g.hand_statuses.set g.current_hand_index (if 21 < handValue (g.player_hands.getD g.current_hand_index [] ++ [(drawCard g).1]) then Status.bust else Status.stood) }) := by
      have step1 : doubleDown g = finalizeIfDone (advanceHand
          { (drawCard g).2 with
            hand_bets := modAt (fun b => b * 2) g.current_hand_index g.hand_bets,
            hand_doubled := g.hand_doubled.set g.current_hand_index true,
            player_hands := modAt (fun h => h ++ [(drawCard g).1]) g.current_hand_index g.player_hands,
            hand_statuses := g.hand_statuses.set g.current_hand_index (if 21 < handValue ((modAt (fun h => h ++ [(drawCard g).1]) g.current_hand_index g.player_hands).getD g.current_hand_index []) then Status.bust else Status.stood) }) := by
        unfold doubleDown
        rw [if_pos hc]
        rfl
      rw [step1, hmod]
    have hbets : (doubleDown g).hand_bets =
        modAt (fun b => b * 2) g.current_hand_index g.hand_bets := by
      rw [heq, (finalize_preserved _).2.1, (advanceHand_fields _).2.2.1]
    have hhands : (doubleDown g).player_hands =
        modAt (fun h => h ++ [(drawCard g).1]) g.current_hand_index g.player_hands := by
      rw [heq, (finalize_preserved _).1, (advanceHand_fields _).1]
    refine ⟨?_, (drawCard g).1, ?_, heq⟩
    · rw [hbets]
      by_cases hbl : g.current_hand_index < g.hand_bets.length
      · rw [getD_modAt_self _ _ _ _ hbl]
        ring
      · rw [modAt_oob _ _ _ (by omega), getD_of_le _ _ _ (by omega)]
        ring
    · rw [hhands, getD_modAt_self _ _ _ _ hlen]

/-- Witness for C5 on a fresh deal (player 10-9 against dealer 8-7, bet
10): doubling is allowed and doubles the bet to 20. -/
theorem C5_witness :
    canDouble (initGameWith wDeckA 10) = true ∧
    (doubleDown (initGameWith wDeckA 10)).hand_bets.getD 0 0 = 20 := by
  have hc : canDouble (initGameWith wDeckA 10) = true := by decide
  have h := ((C5_double_down (initGameWith wDeckA 10)).2.2 hc).1
  refine ⟨hc, ?_⟩
  have hcur : (initGameWith wDeckA 10).current_hand_index = 0 := by decide
  rw [hcur] at h
  rw [h]
  decide

lemma resolveStatus_ne_playing (dT t : Nat) (st : Status) :
    resolveStatus dT t st ≠ Status.playing := by
  unfold resolveStatus
  split
  · next h => rw [h]; simp
  · split
    · simp
    · split
      · simp
      · split <;> simp

lemma resolveStatus_ne_stood (dT t : Nat) (st : Status) (_h : st ≠ Status.stood) :
    resolveStatus dT t st ≠ Status.stood := by
  unfold resolveStatus
  split
  · next hb => rw [hb]; simp
  · split
    · simp
    · split
      · simp
      · split <;> simp

lemma resolveStatus_bust (dT t : Nat) :
    resolveStatus dT t Status.bust = Status.bust := by
  simp [resolveStatus]

lemma resolveStatus_stood (dT t : Nat) (h : t ≤ 21) :
    resolveStatus dT t Status.stood = Status.win ∨
    resolveStatus dT t Status.stood = Status.lose ∨
    resolveStatus dT t Status.stood = Status.push := by
  unfold resolveStatus
  rw [if_neg (by simp), if_neg (by omega)]
  split
  · exact Or.inl rfl
  · split
    · exact Or.inr (Or.inr rfl)
    · exact Or.inr (Or.inl rfl)

lemma getD_map_lt (f : α → β) (l : List α) (j : Nat) (d : β) (d' : α)
    (h : j < l.length) : (l.map f).getD j d = f (l.getD j d') := by
  induction l generalizing j with
  | nil => simp at h
  | cons a as ih =>
      match j with
      | 0 => simp
      | n + 1 =>
          simp only [List.map_cons, List.getD_cons_succ]
          exact ih n (by simpa using h)

lemma advFin_spec (g : GameState)
    (hlen : g.hand_statuses.length = g.player_hands.length)
    (hfin : g.finished = false)
    (hcur : g.current_hand_index < g.hand_statuses.length)
    (hprev : ∀ j, j ≤ g.current_hand_index → getSt g j ≠ Status.playing)
    (hlive : ∀ j, j < g.hand_statuses.length →
      getSt g j = Status.playing ∨ getSt g j = Status.stood ∨
        getSt g j = Status.bust)
    (hle : ∀ j, j < g.hand_statuses.length →
      (getSt g j = Status.playing ∨ getSt g j = Status.stood) →
      handTotal g j ≤ 21) :
    GameInv (finalizeIfDone (advanceHand g)) ∧
    ∀ i, getSt (finalizeIfDone (advanceHand g)) i = getSt g i ∨
      (getSt g i = Status.stood ∧
        (getSt (finalizeIfDone (advanceHand g)) i = Status.win ∨
         getSt (finalizeIfDone (advanceHand g)) i = Status.lose ∨
         getSt (finalizeIfDone (advanceHand g)) i = Status.push)) := by
  obtain ⟨hge, hplay, hmid, hle'⟩ := advanceAux_spec g.hand_statuses
    (g.hand_statuses.length - g.current_hand_index) g.current_hand_index
    (by omega)
  set r := advanceAux g.hand_statuses
    (g.hand_statuses.length - g.current_hand_index) g.current_hand_index with hr
  have hA : advanceHand g =
      { g with current_hand_index := r } := by
    simp [advanceHand]
  have hAst : (advanceHand g).hand_statuses = g.hand_statuses := by rw [hA]
  have hrle : r ≤ g.hand_statuses.length := hle' (le_of_lt hcur)
  by_cases hrlt : r < g.hand_statuses.length
  · -- a later hand is still playing: finalization is a no-op
    have hnoop : finalizeIfDone (advanceHand g) = advanceHand g := by
      refine finalize_noop _ ⟨r, ?_, ?_⟩
      · rw [hAst]; exact hrlt
      · unfold getSt; rw [hAst]; exact hplay hrlt
    rw [hnoop, hA]
    constructor
    · refine ⟨hlen, ?_, ?_, ?_, ?_⟩
      · intro _
        refine ⟨hrlt, hplay hrlt, ?_⟩
        intro j hj
        by_cases hjc : j ≤ g.current_hand_index
        · exact hprev j hjc
        · exact hmid j (by omega) hj
      · intro hcon
        rw [show ({ g with current_hand_index := r } : GameState).finished
          = g.finished from rfl, hfin] at hcon
        cases hcon
      · intro _ j hj
        exact hlive j hj
      · intro j hj
        exact hle j hj
    · intro i
      exact Or.inl rfl
  · -- every hand is settled: finalization runs
    have hreq : r = g.hand_statuses.length := by omega
    have hnone : ∀ j, j < g.hand_statuses.length → getSt g j ≠ Status.playing := by
      intro j hj
      by_cases hjc : j ≤ g.current_hand_index
      · exact hprev j hjc
      · exact hmid j (by omega) (by omega)
    have hnoneA : ∀ j, j < (advanceHand g).hand_statuses.length →
        getSt (advanceHand g) j ≠ Status.playing := by
      intro j hj
      rw [hAst] at hj
      have : getSt (advanceHand g) j = getSt g j := by
        unfold getSt; rw [hAst]
      rw [this]
      exact hnone j hj
    have hanyA := any_playing_false (advanceHand g) hnoneA
    have hgetA : ∀ j, getSt (advanceHand g) j = getSt g j := by
      intro j; unfold getSt; rw [hAst]
    have hhandsA : (advanceHand g).player_hands = g.player_hands := by rw [hA]
    by_cases hb : (advanceHand g).hand_statuses.any
        (fun s => decide (s ≠ Status.bust)) = true
    · obtain ⟨hF, hP, hD, hL, hS⟩ := finalize_active_spec (advanceHand g) hanyA hb
      have hLg : (finalizeIfDone (advanceHand g)).hand_statuses.length
          = g.hand_statuses.length := by rw [hL, hAst]
      have hPg : (finalizeIfDone (advanceHand g)).player_hands = g.player_hands := by
        rw [hP, hhandsA]
      have hSg : ∀ j, j < g.hand_statuses.length →
          getSt (finalizeIfDone (advanceHand g)) j =
            resolveStatus (dealerTotal (dealerPlay (advanceHand g)))
              (handValue (g.player_hands.getD j [])) (getSt g j) := by
        intro j hj
        have := hS j (by rw [hAst]; exact hj)
        rw [hgetA j, hhandsA] at this
        exact this
      have hOOB : ∀ j, g.hand_statuses.length ≤ j →
          getSt (finalizeIfDone (advanceHand g)) j = Status.playing := by
        intro j hj
        unfold getSt
        rw [getD_of_le _ _ _ (by rw [hLg]; exact hj)]
      constructor
      · refine ⟨by rw [hLg, hPg, hlen], ?_, ?_, ?_, ?_⟩
        · intro hcon; rw [hF] at hcon; cases hcon
        · intro _ j hj
          rw [hLg] at hj
          rw [hSg j hj]
          exact resolveStatus_ne_playing _ _ _
        · intro hcon; rw [hF] at hcon; cases hcon
        · intro j hj hps
          exfalso
          rw [hLg] at hj
          rw [hSg j hj] at hps
          rcases hps with hps | hps
          · exact resolveStatus_ne_playing _ _ _ hps
          · rcases hlive j hj with hcase | hcase | hcase
            · exact hnone j hj hcase
            · have ht : handValue (g.player_hands.getD j []) ≤ 21 :=
                hle j hj (Or.inr hcase)
              rw [hcase] at hps
              rcases resolveStatus_stood (dealerTotal (dealerPlay (advanceHand g)))
                (handValue (g.player_hands.getD j [])) ht with h1 | h1 | h1 <;>
                rw [h1] at hps <;> cases hps
            · rw [hcase, resolveStatus_bust] at hps
              cases hps
      · intro i
        by_cases hi : i < g.hand_statuses.length
        · rcases hlive i hi with hcase | hcase | hcase
          · exact absurd hcase (hnone i hi)
          · right
            refine ⟨hcase, ?_⟩
            rw [hSg i hi, hcase]
            exact resolveStatus_stood _ _ (by
              have := hle i hi (Or.inr hcase)
              unfold handTotal at this
              exact this)
          · left
            rw [hSg i hi, hcase]
            exact resolveStatus_bust _ _
        · left
          rw [hOOB i (by omega)]
          unfold getSt
          rw [getD_of_le _ _ _ (by omega)]
    · have hb' : (advanceHand g).hand_statuses.any
          (fun s => decide (s ≠ Status.bust)) = false := Bool.eq_false_iff.mpr hb
      rw [finalize_allbust _ hanyA hb']
      obtain ⟨hf1, hf2, hf3, hf4, _⟩ := finishUp_fields (advanceHand g)
      have hLg : (finishUp (advanceHand g)).hand_statuses = g.hand_statuses := by
        rw [hf2, hAst]
      have hgetF : ∀ j, getSt (finishUp (advanceHand g)) j = getSt g j := by
        intro j; unfold getSt; rw [hLg]
      have hPg : (finishUp (advanceHand g)).player_hands = g.player_hands := by
        rw [hf3, hhandsA]
      constructor
      · refine ⟨by rw [hLg, hPg, hlen], ?_, ?_, ?_, ?_⟩
        · intro hcon; rw [hf1] at hcon; cases hcon
        · intro _ j hj
          rw [hLg] at hj
          rw [hgetF j]
          exact hnone j hj
        · intro hcon; rw [hf1] at hcon; cases hcon
        · intro j hj hps
          rw [hLg] at hj
          rw [hgetF j] at hps
          have := hle j hj hps
          unfold handTotal at this ⊢
          rw [hPg]
          exact this
      · intro i
        exact Or.inl (hgetF i)

lemma setCur_advFin (g : GameState) (deck' : List Card)
    (newHands : List (List Card)) (bets' : List Int) (doubled' : List Bool)
    (st' : Status) (hInv : GameInv g) (hfin : g.finished = false)
    (hst' : st' = Status.stood ∨ st' = Status.bust)
    (hlenH : newHands.length = g.player_hands.length)
    (hother : ∀ j, j ≠ g.current_hand_index →
      newHands.getD j [] = g.player_hands.getD j [])
    (hstle : st' = Status.stood →
      handValue (newHands.getD g.current_hand_index []) ≤ 21) :
    GameInv (finalizeIfDone (advanceHand { g with deck := deck', player_hands := newHands, hand_bets := bets', hand_doubled := doubled', hand_statuses := g.hand_statuses.set g.current_hand_index st' })) ∧
    ∀ i, StatusRel (getSt g i) (getSt (finalizeIfDone (advanceHand { g with deck := deck', player_hands := newHands, hand_bets := bets', hand_doubled := doubled', hand_statuses := g.hand_statuses.set g.current_hand_index st' })) i) := by
  obtain ⟨hcur, hstc, hprev⟩ := hInv.not_fin hfin
  have hstp : st' ≠ Status.playing := by
    rcases hst' with h | h <;> rw [h] <;> simp
  have hgcur : getSt { g with deck := deck', player_hands := newHands, hand_bets := bets', hand_doubled := doubled', hand_statuses := g.hand_statuses.set g.current_hand_index st' } g.current_hand_index = st' := by
    unfold getSt
    exact getD_set_self _ _ _ _ hcur
  have hgne : ∀ j, j ≠ g.current_hand_index →
      getSt { g with deck := deck', player_hands := newHands, hand_bets := bets', hand_doubled := doubled', hand_statuses := g.hand_statuses.set g.current_hand_index st' } j = getSt g j := by
    intro j hj
    unfold getSt
    exact getD_set_ne _ _ _ _ _ (fun hc => hj hc.symm)
  obtain ⟨hI, hR⟩ := advFin_spec
    { g with deck := deck', player_hands := newHands, hand_bets := bets', hand_doubled := doubled', hand_statuses := g.hand_statuses.set g.current_hand_index st' }
    (by simpa [List.length_set] using hInv.len_eq.trans hlenH.symm)
    hfin
    (by simpa [List.length_set] using hcur)
    (by
      intro j hj
      have hj' : j ≤ g.current_hand_index := hj
      rcases Nat.eq_or_lt_of_le hj' with rfl | hj2
      · rw [hgcur]; exact hstp
      · rw [hgne j (by omega)]; exact hprev j (by omega))
    (by
      intro j hj
      rw [List.length_set] at hj
      by_cases hjc : j = g.current_hand_index
      · subst hjc
        rw [hgcur]
        rcases hst' with h | h <;> rw [h] <;> simp
      · rw [hgne j hjc]
        exact hInv.live hfin j hj)
    (by
      intro j hj hps
      rw [List.length_set] at hj
      by_cases hjc : j = g.current_hand_index
      · subst hjc
        rw [hgcur] at hps
        rcases hps with hps | hps
        · exact absurd hps hstp
        · exact hstle hps
      · rw [hgne j hjc] at hps
        have := hInv.le21 j hj hps
        unfold handTotal at this ⊢
        rw [hother j hjc]
        exact this)
  refine ⟨hI, ?_⟩
  intro i
  by_cases hic : i = g.current_hand_index
  · subst hic
    exact Or.inr (Or.inl hstc)
  · rcases hR i with h1 | ⟨h2, h3⟩
    · exact Or.inl (by rw [h1, hgne i hic])
    · exact Or.inr (Or.inr ⟨by rw [← hgne i hic]; exact h2, h3⟩)

lemma inv_stand (g : GameState) (hInv : GameInv g) :
    GameInv (playerStand g) ∧
    ∀ i, StatusRel (getSt g i) (getSt (playerStand g) i) := by
  by_cases hf : g.finished = true
  · have hid : playerStand g = g := by simp [playerStand, hf]
    rw [hid]
    exact ⟨hInv, fun i => Or.inl rfl⟩
  · have hfin : g.finished = false := Bool.eq_false_iff.mpr hf
    obtain ⟨hcur, hstc, _⟩ := hInv.not_fin hfin
    have hdecomp : playerStand g = finalizeIfDone (advanceHand { g with deck := g.deck, player_hands := g.player_hands, hand_bets := g.hand_bets, hand_doubled := g.hand_doubled, hand_statuses := g.hand_statuses.set g.current_hand_index Status.stood }) := by
      unfold playerStand
      rw [if_neg (by simp [hfin])]
    rw [hdecomp]
    exact setCur_advFin g g.deck g.player_hands g.hand_bets g.hand_doubled
      Status.stood hInv hfin (Or.inl rfl) rfl (fun j _ => rfl)
      (fun _ => hInv.le21 g.current_hand_index hcur (Or.inl hstc))

lemma inv_hit (g : GameState) (hInv : GameInv g) :
    GameInv (playerHit g) ∧
    ∀ i, StatusRel (getSt g i) (getSt (playerHit g) i) := by
  by_cases hf : g.finished = true
  · have hid : playerHit g = g := by simp [playerHit, hf]
    rw [hid]
    exact ⟨hInv, fun i => Or.inl rfl⟩
  · have hfin : g.finished = false := Bool.eq_false_iff.mpr hf
    obtain ⟨hcur, hstc, _⟩ := hInv.not_fin hfin
    have hcurh : g.current_hand_index < g.player_hands.length := by
      rw [← hInv.len_eq]; exact hcur
    have hmod := getD_modAt_self (fun h => h ++ [(drawCard g).1])
      g.current_hand_index g.player_hands [] hcurh
    have hdecomp : playerHit g = (if 21 < handValue ((modAt (fun h => h ++ [(drawCard g).1]) g.current_hand_index g.player_hands).getD g.current_hand_index []) then finalizeIfDone (advanceHand { g with deck := (drawCard g).2.deck, player_hands := modAt (fun h => h ++ [(drawCard g).1]) g.current_hand_index g.player_hands, hand_bets := g.hand_bets, hand_doubled := g.hand_doubled, hand_statuses := g.hand_statuses.set g.current_hand_index Status.bust }) else { g with deck := (drawCard g).2.deck, player_hands := modAt (fun h => h ++ [(drawCard g).1]) g.current_hand_index g.player_hands }) := by
      unfold playerHit
      rw [if_neg (by simp [hfin])]
      rfl
    rw [hdecomp]
    by_cases hbust : 21 < handValue ((modAt (fun h => h ++ [(drawCard g).1]) g.current_hand_index g.player_hands).getD g.current_hand_index [])
    · rw [if_pos hbust]
      exact setCur_advFin g (drawCard g).2.deck
        (modAt (fun h => h ++ [(drawCard g).1]) g.current_hand_index g.player_hands)
        g.hand_bets g.hand_doubled Status.bust hInv hfin (Or.inr rfl)
        (modAt_length _ _ _)
        (fun j hj => getD_modAt_ne _ _ _ _ _ (fun hc => hj hc.symm))
        (fun hcon => by cases hcon)
    · rw [if_neg hbust]
      constructor
      · refine ⟨?_, ?_, ?_, ?_, ?_⟩
        · simpa [modAt_length] using hInv.len_eq
        · intro _
          exact hInv.not_fin hfin
        · intro hcon
          have : g.finished = true := hcon
          rw [hfin] at this
          cases this
        · intro _ j hj
          exact hInv.live hfin j hj
        · intro j hj hps
          by_cases hjc : j = g.current_hand_index
          · unfold handTotal
            rw [hjc]
            have heq : (({ g with deck := (drawCard g).2.deck, player_hands := modAt (fun h => h ++ [(drawCard g).1]) g.current_hand_index g.player_hands } : GameState)).player_hands.getD g.current_hand_index [] = (modAt (fun h => h ++ [(drawCard g).1]) g.current_hand_index g.player_hands).getD g.current_hand_index [] := rfl
            rw [heq]
            omega
          · have hps' : getSt g j = Status.playing ∨ getSt g j = Status.stood := hps
            have := hInv.le21 j hj hps'
            unfold handTotal at this ⊢
            rw [show (({ g with deck := (drawCard g).2.deck, player_hands := modAt (fun h => h ++ [(drawCard g).1]) g.current_hand_index g.player_hands } : GameState)).player_hands.getD j [] = (modAt (fun h => h ++ [(drawCard g).1]) g.current_hand_index g.player_hands).getD j [] from rfl,
              getD_modAt_ne _ _ _ _ _ (fun hc => hjc hc.symm)]
            exact this
      · intro i
        exact Or.inl rfl

lemma inv_double (g : GameState) (hInv : GameInv g) :
    GameInv (doubleDown g) ∧
    ∀ i, StatusRel (getSt g i) (getSt (doubleDown g) i) := by
  by_cases hc : canDouble g = true
  · obtain ⟨h1, h2, h3, h4⟩ := (canDouble_iff g).mp hc
    have hcurh : g.current_hand_index < g.player_hands.length := by
      by_contra hcon
      rw [getD_of_le _ _ _ (by omega)] at h3
      simp at h3
    have hmod := getD_modAt_self (fun h => h ++ [(drawCard g).1])
      g.current_hand_index g.player_hands [] hcurh
    have hdecomp : doubleDown g = finalizeIfDone (advanceHand { g with deck := (drawCard g).2.deck, player_hands := modAt (fun h => h ++ [(drawCard g).1]) g.current_hand_index g.player_hands, hand_bets := modAt (fun b => b * 2) g.current_hand_index g.hand_bets, hand_doubled := g.hand_doubled.set g.current_hand_index true, hand_statuses := g.hand_statuses.set g.current_hand_index (if 21 < handValue ((modAt (fun h => h ++ [(drawCard g).1]) g.current_hand_index g.player_hands).getD g.current_hand_index []) then Status.bust else Status.stood) }) := by
      unfold doubleDown
      rw [if_pos hc]
      rfl
    rw [hdecomp]
    by_cases hbust : 21 < handValue ((modAt (fun h => h ++ [(drawCard g).1]) g.current_hand_index g.player_hands).getD g.current_hand_index [])
    · rw [if_pos hbust]
      exact setCur_advFin g (drawCard g).2.deck
        (modAt (fun h => h ++ [(drawCard g).1]) g.current_hand_index g.player_hands)
        (modAt (fun b => b * 2) g.current_hand_index g.hand_bets)
        (g.hand_doubled.set g.current_hand_index true)
        Status.bust hInv h1 (Or.inr rfl)
        (modAt_length _ _ _)
        (fun j hj => getD_modAt_ne _ _ _ _ _ (fun hcc => hj hcc.symm))
        (fun hcon => by cases hcon)
    · rw [if_neg hbust]
      exact setCur_advFin g (drawCard g).2.deck
        (modAt (fun h => h ++ [(drawCard g).1]) g.current_hand_index g.player_hands)
        (modAt (fun b => b * 2) g.current_hand_index g.hand_bets)
        (g.hand_doubled.set g.current_hand_index true)
        Status.stood hInv h1 (Or.inl rfl)
        (modAt_length _ _ _)
        (fun j hj => getD_modAt_ne _ _ _ _ _ (fun hcc => hj hcc.symm))
        (fun _ => by omega)
  · have hid : doubleDown g = g := by
      unfold doubleDown
      rw [if_neg (by simp [hc])]
    rw [hid]
    exact ⟨hInv, fun i => Or.inl rfl⟩

lemma inv_settle (g : GameState) (hInv : GameInv g) :
    GameInv (settlePayout g).2 ∧
    ∀ i, StatusRel (getSt g i) (getSt (settlePayout g).2 i) := by
  by_cases hs : g.settled = true
  · have hid : (settlePayout g).2 = g := by simp [settlePayout, hs]
    rw [hid]
    exact ⟨hInv, fun i => Or.inl rfl⟩
  · have hid : (settlePayout g).2 = { g with settled := true } := by
      simp [settlePayout, hs]
    rw [hid]
    refine ⟨⟨hInv.len_eq, hInv.not_fin, hInv.fin, hInv.live, hInv.le21⟩,
      fun i => Or.inl rfl⟩

lemma inv_forfeit (g : GameState) (hInv : GameInv g) :
    GameInv (forfeitGame g) ∧
    ∀ i, StatusRel (getSt g i) (getSt (forfeitGame g) i) := by
  by_cases hf : g.finished = true
  · have hid : forfeitGame g = g := by simp [forfeitGame, hf]
    rw [hid]
    exact ⟨hInv, fun i => Or.inl rfl⟩
  · have hfin : g.finished = false := Bool.eq_false_iff.mpr hf
    have hid : forfeitGame g = { g with hand_statuses := g.hand_statuses.map (fun s => if s = Status.playing then Status.lose else s), finished := true, result := "Game timed out. Bets forfeited." } := by
      simp [forfeitGame, hf]
    rw [hid]
    have hget : ∀ j, j < g.hand_statuses.length →
        getSt { g with hand_statuses := g.hand_statuses.map (fun s => if s = Status.playing then Status.lose else s), finished := true, result := "Game timed out. Bets forfeited." } j =
          (if getSt g j = Status.playing then Status.lose else getSt g j) := by
      intro j hj
      unfold getSt
      exact getD_map_lt _ _ _ _ Status.playing hj
    have hoob : ∀ j, g.hand_statuses.length ≤ j →
        getSt { g with hand_statuses := g.hand_statuses.map (fun s => if s = Status.playing then Status.lose else s), finished := true, result := "Game timed out. Bets forfeited." } j = Status.playing := by
      intro j hj
      unfold getSt
      exact getD_of_le _ _ _ (by simpa using hj)
    constructor
    · refine ⟨by simpa using hInv.len_eq, ?_, ?_, ?_, ?_⟩
      · intro hcon; cases hcon
      · intro _ j hj
        rw [List.length_map] at hj
        rw [hget j hj]
        by_cases hp : getSt g j = Status.playing
        · rw [if_pos hp]; simp
        · rw [if_neg hp]; exact hp
      · intro hcon; cases hcon
      · intro j hj hps
        rw [List.length_map] at hj
        rw [hget j hj] at hps
        have hstood : getSt g j = Status.stood := by
          by_cases hp : getSt g j = Status.playing
          · rw [if_pos hp] at hps
            rcases hps with hps | hps <;> cases hps
          · rw [if_neg hp] at hps
            rcases hps with hps | hps
            · exact absurd hps hp
            · exact hps
        have := hInv.le21 j hj (Or.inr hstood)
        unfold handTotal at this ⊢
        exact this
    · intro i
      by_cases hi : i < g.hand_statuses.length
      · by_cases hp : getSt g i = Status.playing
        · exact Or.inr (Or.inl hp)
        · left
          rw [hget i hi, if_neg hp]
      · left
        rw [hoob i (by omega)]
        unfold getSt
        rw [getD_of_le _ _ _ (by omega)]

lemma inv_split (g : GameState) (hInv : GameInv g) :
    GameInv (splitGame g).2 ∧
    ∀ i, StatusRel (getSt g i) (getSt (splitGame g).2 i) := by
  by_cases hc : canSplit g = true
  · have hfin : g.finished = false := by
      unfold canSplit at hc
      by_cases h1 : (g.finished || g.split_used) = true
      · rw [if_pos h1] at hc; exact absurd hc (by simp)
      · simp only [Bool.or_eq_true, not_or] at h1
        exact Bool.eq_false_iff.mpr h1.1
    have hlen1 : g.player_hands.length = 1 := by
      unfold canSplit at hc
      by_cases h1 : (g.finished || g.split_used) = true
      · rw [if_pos h1] at hc; exact absurd hc (by simp)
      · rw [if_neg h1] at hc
        by_cases h2 : g.player_hands.length ≠ 1
        · rw [if_pos h2] at hc; exact absurd hc (by simp)
        · omega
    have hhand2 : (g.player_hands.getD 0 []).length = 2 := by
      unfold canSplit at hc
      by_cases h1 : (g.finished || g.split_used) = true
      · rw [if_pos h1] at hc; exact absurd hc (by simp)
      · rw [if_neg h1] at hc
        by_cases h2 : g.player_hands.length ≠ 1
        · rw [if_pos h2] at hc; exact absurd hc (by simp)
        · rw [if_neg h2] at hc
          by_cases h3 : (g.player_hands.getD 0 []).length ≠ 2
          · rw [if_pos h3] at hc; exact absurd hc (by simp)
          · omega
    have hstlen : g.hand_statuses.length = 1 := hInv.len_eq.trans hlen1
    have hallplay : ∀ i, getSt g i = Status.playing := by
      obtain ⟨hcur, hstc, _⟩ := hInv.not_fin hfin
      intro i
      match i with
      | 0 =>
          have hc0 : g.current_hand_index = 0 := by omega
          rw [← hc0]
          exact hstc
      | n + 1 =>
          unfold getSt
          rw [getD_of_le _ _ _ (by omega)]
    obtain ⟨a, b, hh⟩ : ∃ a b, g.player_hands.getD 0 [] = [a, b] := by
      match hhh : g.player_hands.getD 0 [] with
      | [x, y] => exact ⟨x, y, rfl⟩
      | [] => rw [hhh] at hhand2; simp at hhand2
      | [x] => rw [hhh] at hhand2; simp at hhand2
      | x :: y :: z :: rest => rw [hhh] at hhand2; simp at hhand2
    have hsp : (splitGame g).2 = { (drawCard (drawCard g).2).2 with player_hands := [[a, (drawCard g).1], [b, (drawCard (drawCard g).2).1]], hand_statuses := [Status.playing, Status.playing], hand_bets := [g.hand_bets.getD 0 0, g.hand_bets.getD 0 0], hand_doubled := [false, false], current_hand_index := 0, split_used := true } := by
      unfold splitGame
      rw [if_pos hc, hh]
    rw [hsp]
    constructor
    · refine ⟨rfl, ?_, ?_, ?_, ?_⟩
      · intro _
        refine ⟨(by omega : (0 : Nat) < 2), rfl, ?_⟩
        intro j hj
        have hj' : j < 0 := hj
        omega
      · intro hcon
        have hgf : g.finished = true := hcon
        rw [hfin] at hgf
        cases hgf
      · intro _ j hj
        have hj' : j < 2 := hj
        rcases j with _ | _ | j
        · exact Or.inl rfl
        · exact Or.inl rfl
        · omega
      · intro j hj hps
        have hj' : j < 2 := hj
        rcases j with _ | _ | j
        · exact two_card_le_21 a (drawCard g).1
        · exact two_card_le_21 b (drawCard (drawCard g).2).1
        · omega
    · intro i
      exact Or.inr (Or.inl (hallplay i))
  · have hid : (splitGame g).2 = g := by
      unfold splitGame
      rw [if_neg (by simp [hc])]
    rw [hid]
    exact ⟨hInv, fun i => Or.inl rfl⟩

lemma inv_finished_single (st : Status) (hne : st ≠ Status.playing)
    (hnst : st ≠ Status.stood) (D : List Card) (hand : List Card)
    (dh : List Card) (w : Nat) (res : String) (bet : Int) :
    GameInv { deck := D, player_hands := [hand], dealer_hand := dh, finished := true, winning_hand_count := w, result := res, current_hand_index := 0, split_used := false, hand_statuses := [st], hand_bets := [bet], hand_doubled := [false], settled := false } := by
  refine ⟨rfl, (fun hcon => nomatch hcon), ?_, (fun hcon => nomatch hcon), ?_⟩
  · intro _ j hj
    have hj' : j < 1 := hj
    rcases j with _ | j
    · exact fun hcon => hne hcon
    · omega
  · intro j hj hps
    have hj' : j < 1 := hj
    rcases j with _ | j
    · have hps' : st = Status.playing ∨ st = Status.stood := hps
      rcases hps' with h | h
      · exact absurd h hne
      · exact absurd h hnst
    · omega

lemma inv_check (a b c d : Card) (D : List Card) (bet : Int) :
    GameInv (checkInitialBlackjack { deck := D, player_hands := [[a, b]], dealer_hand := [c, d], finished := false, winning_hand_count := 0, result := "", current_hand_index := 0, split_used := false, hand_statuses := [Status.playing], hand_bets := [bet], hand_doubled := [false], settled := false }) := by
  by_cases hp : isBlackjack [a, b] = true
  · by_cases hd : isBlackjack [c, d] = true
    · have heq : checkInitialBlackjack { deck := D, player_hands := [[a, b]], dealer_hand := [c, d], finished := false, winning_hand_count := 0, result := "", current_hand_index := 0, split_used := false, hand_statuses := [Status.playing], hand_bets := [bet], hand_doubled := [false], settled := false } = { deck := D, player_hands := [[a, b]], dealer_hand := [c, d], finished := true, winning_hand_count := 0, result := "Both you and the dealer have blackjack. Push.", current_hand_index := 0, split_used := false, hand_statuses := [Status.push], hand_bets := [bet], hand_doubled := [false], settled := false } := by
        simp [checkInitialBlackjack, hp, hd]
      rw [heq]
      exact inv_finished_single Status.push (by decide) (by decide) D [a, b] [c, d] 0 _ bet
    · have heq : checkInitialBlackjack { deck := D, player_hands := [[a, b]], dealer_hand := [c, d], finished := false, winning_hand_count := 0, result := "", current_hand_index := 0, split_used := false, hand_statuses := [Status.playing], hand_bets := [bet], hand_doubled := [false], settled := false } = { deck := D, player_hands := [[a, b]], dealer_hand := [c, d], finished := true, winning_hand_count := 1, result := "Blackjack! You win.", current_hand_index := 0, split_used := false, hand_statuses := [Status.blackjack], hand_bets := [bet], hand_doubled := [false], settled := false } := by
        simp [checkInitialBlackjack, hp, hd]
      rw [heq]
      exact inv_finished_single Status.blackjack (by decide) (by decide) D [a, b] [c, d] 1 _ bet
  · by_cases hd : isBlackjack [c, d] = true
    · have heq : checkInitialBlackjack { deck := D, player_hands := [[a, b]], dealer_hand := [c, d], finished := false, winning_hand_count := 0, result := "", current_hand_index := 0, split_used := false, hand_statuses := [Status.playing], hand_bets := [bet], hand_doubled := [false], settled := false } = { deck := D, player_hands := [[a, b]], dealer_hand := [c, d], finished := true, winning_hand_count := 0, result := "Dealer has blackjack. You lose.", current_hand_index := 0, split_used := false, hand_statuses := [Status.lose], hand_bets := [bet], hand_doubled := [false], settled := false } := by
        simp [checkInitialBlackjack, hp, hd]
      rw [heq]
      exact inv_finished_single Status.lose (by decide) (by decide) D [a, b] [c, d] 0 _ bet
    · have heq : checkInitialBlackjack { deck := D, player_hands := [[a, b]], dealer_hand := [c, d], finished := false, winning_hand_count := 0, result := "", current_hand_index := 0, split_used := false, hand_statuses := [Status.playing], hand_bets := [bet], hand_doubled := [false], settled := false } = { deck := D, player_hands := [[a, b]], dealer_hand := [c, d], finished := false, winning_hand_count := 0, result := "", current_hand_index := 0, split_used := false, hand_statuses := [Status.playing], hand_bets := [bet], hand_doubled := [false], settled := false } := by
        simp [checkInitialBlackjack, hp, hd]
      rw [heq]
      refine ⟨rfl, ?_, (fun hcon => nomatch hcon), ?_, ?_⟩
      · intro _
        refine ⟨(by omega : (0 : Nat) < 1), rfl, ?_⟩
        intro j hj
        have hj' : j < 0 := hj
        omega
      · intro _ j hj
        have hj' : j < 1 := hj
        rcases j with _ | j
        · exact Or.inl rfl
        · omega
      · intro j hj hps
        have hj' : j < 1 := hj
        rcases j with _ | j
        · exact two_card_le_21 a b
        · omega

lemma inv_init (deck : List Card) (bet : Int) :
    GameInv (initGameWith deck bet) := by
  unfold initGameWith
  exact inv_check _ _ _ _ _ bet

lemma reachable_inv (g : GameState) (hr : Reachable g) : GameInv g := by
  induction hr with
  | init deck bet => exact inv_init deck bet
  | step hprev hstep ih =>
      cases hstep with
      | hit => exact (inv_hit _ ih).1
      | stand => exact (inv_stand _ ih).1
      | split => exact (inv_split _ ih).1
      | double => exact (inv_double _ ih).1
      | forfeit => exact (inv_forfeit _ ih).1
      | settle => exact (inv_settle _ ih).1

/-- Counterexample to C7 as stated: from the concrete deal `cexDeck`
(a pair of eights split into two hands), standing the first hand assigns
it the terminal status `stood`, and the next operation (standing the
second hand, which triggers finalization) changes that hand's status to
`lose` — so a terminal status is changed by a later operation. -/
theorem C7_counterexample :
    Reachable (playerStand (splitGame (initGameWith cexDeck 10)).2) ∧
    Step (playerStand (splitGame (initGameWith cexDeck 10)).2)
      (playerStand (playerStand (splitGame (initGameWith cexDeck 10)).2)) ∧
    getSt (playerStand (splitGame (initGameWith cexDeck 10)).2) 0 = Status.stood ∧
    getSt (playerStand (playerStand (splitGame (initGameWith cexDeck 10)).2)) 0 =
      Status.lose := by
  refine ⟨?_, Step.stand _, by decide, by decide⟩
  exact Reachable.step
    (Reachable.step (Reachable.init cexDeck 10) (Step.split _))
    (Step.stand _)

/-- C7 (amended): along every public engine operation on a reachable
state, a hand's status either stays unchanged, or leaves `playing`, or —
only in the case of `stood` — is resolved to win/lose/push by
finalization.  In particular no status ever returns to `playing` and
`bust`, `win`, `lose`, `push`, `blackjack` are permanent, but `stood` is
not. -/
theorem C7_status_transitions (g g' : GameState) (hr : Reachable g)
    (hs : Step g g') : ∀ i, StatusRel (getSt g i) (getSt g' i) := by
  have hInv := reachable_inv g hr
  cases hs with
  | hit => exact (inv_hit g hInv).2
  | stand => exact (inv_stand g hInv).2
  | split => exact (inv_split g hInv).2
  | double => exact (inv_double g hInv).2
  | forfeit => exact (inv_forfeit g hInv).2
  | settle => exact (inv_settle g hInv).2

/-- Witness for the amended C7 at a concrete reachable state and step. -/
theorem C7_witness :
    StatusRel (getSt (initGameWith wDeckA 10) 0)
      (getSt (playerHit (initGameWith wDeckA 10)) 0) :=
  C7_status_transitions _ _ (Reachable.init wDeckA 10) (Step.hit _) 0

/-- C10: in every reachable state that is not finished, the current hand
index addresses a real player hand whose status is `playing`; dually, when
no hand is `playing` the session is finished. -/
theorem C10_live_index (g : GameState) (hr : Reachable g) :
    (g.finished = false → g.current_hand_index < g.player_hands.length ∧
      getSt g g.current_hand_index = Status.playing) ∧
    ((∀ j, j < g.hand_statuses.length → getSt g j ≠ Status.playing) →
      g.finished = true) := by
  have hInv := reachable_inv g hr
  constructor
  · intro hf
    obtain ⟨h1, h2, _⟩ := hInv.not_fin hf
    exact ⟨hInv.len_eq ▸ h1, h2⟩
  · intro hnp
    by_cases hf : g.finished = true
    · exact hf
    · exfalso
      obtain ⟨h1, h2, _⟩ := hInv.not_fin (Bool.eq_false_iff.mpr hf)
      exact hnp _ h1 h2

/-- Witness for C10 at a concrete freshly dealt game. -/
theorem C10_witness :
    (initGameWith wDeckA 25).current_hand_index <
      (initGameWith wDeckA 25).player_hands.length ∧
    getSt (initGameWith wDeckA 25) (initGameWith wDeckA 25).current_hand_index =
      Status.playing :=
  (C10_live_index (initGameWith wDeckA 25) (Reachable.init wDeckA 25)).1 (by decide)
